import Mathlib

/-!
# guac: the scorecard certifier command and the OCI collector fan-out

A shallow embedding of

* `cmd/guacone/cmd/scorecard.go`: `validateScorecardFlags`, the `emit` and
  `errHandler` closures of `scorecardCmd.Run`, and the shutdown sequence with
  its final summary;
* `pkg/handler/collector/oci/collector.go`: `pushBlobData`, `collect` and
  `collectLayersOfImage`.

Go values are modelled as follows.  An `error` is a `GoError` and a possibly
nil error is an `Option GoError`.  `time.Duration` is an `Int` (nanoseconds),
`int` is an `Int`, `[]byte` is a `List Nat`.  A send-only channel of documents
is the list of documents sent on it so far, oldest first; a send appends.
Functions of other packages are parameters of the definitions that call them.
-/

namespace Guac

/-! ## Go errors -/

/-- Go `error` values: an error with a message, or an error that wraps
another one behind a message (`fmt.Errorf` with the verb `%w`). -/
inductive GoError where
  | base (msg : String)
  | wrap (msg : String) (cause : GoError)
  deriving DecidableEq, Repr

/-- The method `Error()`: the message of an error. -/
def GoError.Error : GoError → String
  | .base msg => msg
  | .wrap msg cause => msg ++ cause.Error

/-- A `time.Duration`: a signed count of nanoseconds. -/
abbrev Duration := Int

/-! ## `cmd/guacone/cmd/scorecard.go` -/

/-- The struct `scorecardOptions`.  `κ` is the type
`csub_client.CsubClientOptions`, declared in another package. -/
structure scorecardOptions (κ : Type) where
  graphqlEndpoint : String
  headerFile : String
  poll : Bool
  interval : Duration
  csubClientOptions : κ
  queryVulnOnIngestion : Bool
  addVulnMetadata : Bool
  queryLicenseOnIngestion : Bool
  /-- sets artificial latency on the certifier (default to nil) -/
  addedLatency : Option Duration
  /-- sets the batch size for pagination query for the certifier -/
  batchSize : Int
  deriving DecidableEq, Repr

/-- The functions of other packages that `validateScorecardFlags` calls:
`time.ParseDuration`, `csub_client.ValidateCsubClientFlags`, and the zero
value of `csub_client.CsubClientOptions`. -/
structure FlagDeps (κ : Type) where
  ParseDuration : String → Except GoError Duration
  ValidateCsubClientFlags : String → Bool → Bool → Except GoError κ
  zeroCsubClientOptions : κ

/-- The zero value that `var opts scorecardOptions` declares. -/
def scorecardOptions.zero {κ : Type} (deps : FlagDeps κ) : scorecardOptions κ :=
  { graphqlEndpoint := ""
    headerFile := ""
    poll := false
    interval := 0
    csubClientOptions := deps.zeroCsubClientOptions
    queryVulnOnIngestion := false
    addVulnMetadata := false
    queryLicenseOnIngestion := false
    addedLatency := none
    batchSize := 0 }

/-- The function `validateScorecardFlags`.  The result is the Go pair
`(scorecardOptions, error)`: the options as far as they were filled in when
the function returned, and the error (`none` is nil). -/
def validateScorecardFlags {κ : Type} (deps : FlagDeps κ)
    (graphqlEndpoint headerFile csubAddr interval : String)
    (csubTls csubTlsSkipVerify poll : Bool)
    (queryVulnIngestion : Bool)
    (queryLicenseIngestion : Bool)
    (certifierLatencyStr : String)
    (batchSize : Int)
    (addVulnMetadata : Bool) : scorecardOptions κ × Option GoError :=
  let opts := scorecardOptions.zero deps
  let opts := { opts with graphqlEndpoint := graphqlEndpoint }
  let opts := { opts with headerFile := headerFile }
  let latency : Except GoError (Option Duration) :=
    if certifierLatencyStr ≠ "" then
      match deps.ParseDuration certifierLatencyStr with
      | .error err => .error (.wrap "failed to parser duration with error: " err)
      | .ok addedLatency => .ok (some addedLatency)
    else
      .ok none
  match latency with
  | .error err => (opts, some err)
  | .ok addedLatency =>
    let opts := { opts with addedLatency := addedLatency }
    let opts := { opts with batchSize := batchSize }
    match deps.ValidateCsubClientFlags csubAddr csubTls csubTlsSkipVerify with
    | .error err => (opts, some (.wrap "unable to validate csub client flags: " err))
    | .ok csubOpts =>
      let opts := { opts with csubClientOptions := csubOpts }
      let opts := { opts with poll := poll }
      match deps.ParseDuration interval with
      | .error err => (opts, some err)
      | .ok i =>
        let opts := { opts with interval := i }
        let opts := { opts with queryVulnOnIngestion := queryVulnIngestion }
        let opts := { opts with queryLicenseOnIngestion := queryLicenseIngestion }
        let opts := { opts with addVulnMetadata := addVulnMetadata }
        (opts, none)

/-! ### An instance of the external functions

The theorems about `validateScorecardFlags` hold for every `FlagDeps`.  To
evaluate the function on concrete flag values an instance is needed; the one
below follows the Go standard library's `time.ParseDuration` on the inputs
without a decimal point.  (With a decimal point Go computes the fractional
part in floating point; such inputs are outside this instance, which reports
them as invalid.) -/

/-- The table `unitMap` of package `time`: nanoseconds per unit. -/
def unitMap (u : List Char) : Option Nat :=
  if u = ['n', 's'] then some 1
  else if u = ['u', 's'] then some 1000
  else if u = [Char.ofNat 0xB5, 's'] then some 1000
  else if u = [Char.ofNat 0x3BC, 's'] then some 1000
  else if u = ['m', 's'] then some 1000000
  else if u = ['s'] then some 1000000000
  else if u = ['m'] then some 60000000000
  else if u = ['h'] then some 3600000000000
  else none

/-- The character test `'0' <= c && c <= '9'`. -/
def isDigit (c : Char) : Bool := decide ('0'.toNat ≤ c.toNat) && decide (c.toNat ≤ '9'.toNat)

/-- The function `leadingInt` of package `time`, with the accumulator `x`
explicit: the leading digits as a number and the rest of the input, or `none`
when the number exceeds `1<<63`. -/
def leadingInt : List Char → Nat → Option (Nat × List Char)
  | [], x => some (x, [])
  | c :: cs, x =>
    if !isDigit c then some (x, c :: cs)
    else if x > 2 ^ 63 / 10 then none
    else
      let y := x * 10 + (c.toNat - '0'.toNat)
      if y > 2 ^ 63 then none else leadingInt cs y

/-- Whether a character ends a unit name: `c == '.' || '0' <= c && c <= '9'`. -/
def endsUnit (c : Char) : Bool := c == '.' || isDigit c

/-- The error `time: invalid duration` for the original input. -/
def invalidDuration (orig : String) : GoError :=
  .base ("time: invalid duration " ++ orig.quote)

/-- The main loop of `time.ParseDuration` over the remaining input `s`, with
the sum `d` so far (a `uint64`).  `fuel` bounds the number of segments; every
segment consumes at least its unit, so the length of the input suffices. -/
def parseSegments (orig : String) : Nat → List Char → Nat → Except GoError Nat
  | _, [], d => .ok d
  | 0, _ :: _, _ => .error (invalidDuration orig)
  | fuel + 1, c :: cs, d =>
    if !endsUnit c then .error (invalidDuration orig)
    else
      match leadingInt (c :: cs) 0 with
      | none => .error (invalidDuration orig)
      | some (v, s) =>
        match s with
        | '.' :: _ => .error (invalidDuration orig)
        | _ =>
          let u := s.takeWhile (fun c => !endsUnit c)
          let s := s.dropWhile (fun c => !endsUnit c)
          if u = [] then
            .error (.base ("time: missing unit in duration " ++ orig.quote))
          else
            match unitMap u with
            | none =>
              .error (.base ("time: unknown unit " ++ (String.mk u).quote ++
                " in duration " ++ orig.quote))
            | some unit =>
              if v > 2 ^ 63 / unit then .error (invalidDuration orig)
              else
                let d := (d + v * unit) % 2 ^ 64
                if d > 2 ^ 63 then .error (invalidDuration orig)
                else parseSegments orig fuel s d

/-- The function `time.ParseDuration` on inputs without a decimal point. -/
def ParseDuration (orig : String) : Except GoError Duration :=
  let s := orig.data
  let neg := s.head? = some '-'
  let s := if s.head? = some '-' ∨ s.head? = some '+' then s.tail else s
  if s = ['0'] then .ok 0
  else if s = [] then .error (invalidDuration orig)
  else
    match parseSegments orig s.length s 0 with
    | .error err => .error err
    | .ok d =>
      if neg then .ok (-(d : Int))
      else if d > 2 ^ 63 - 1 then .error (invalidDuration orig)
      else .ok (d : Int)

/-- The struct `csub_client.CsubClientOptions` as the instance has it: the
address and the two TLS switches. -/
structure CsubClientOptions where
  Addr : String
  Tls : Bool
  TlsSkipVerify : Bool
  deriving DecidableEq, Repr

/-- An instance of the external functions: `ParseDuration` above, and a
`ValidateCsubClientFlags` that accepts every combination of flags and stores
them. -/
def exampleDeps : FlagDeps CsubClientOptions where
  ParseDuration := ParseDuration
  ValidateCsubClientFlags := fun addr tls skip =>
    .ok { Addr := addr, Tls := tls, TlsSkipVerify := skip }
  zeroCsubClientOptions := { Addr := "", Tls := false, TlsSkipVerify := false }

/-! ### The closures and the shutdown sequence of `scorecardCmd.Run` -/

/-- The severity of a logger call: `logger.Infof` or `logger.Errorf`. -/
inductive LogLevel where
  | info
  | error
  deriving DecidableEq, Repr

/-- An argument of a logger call. -/
inductive LogArg where
  | int (n : Int)
  | str (s : String)
  | err (e : GoError)
  deriving DecidableEq, Repr

/-- A call of the logger: its level, its format string and its arguments.
Rendering the message is the logger's business. -/
structure LogCall where
  level : LogLevel
  format : String
  args : List LogArg
  deriving DecidableEq, Repr

/-- The variables of `scorecardCmd.Run` that its closures capture and change:
`totalNum`, `gotErr`, and the logger calls made so far. -/
structure RunState where
  totalNum : Int
  gotErr : Bool
  log : List LogCall
  deriving DecidableEq, Repr

/-- The state at `totalNum := 0; gotErr := false`. -/
def RunState.init : RunState :=
  { totalNum := 0, gotErr := false, log := [] }

/-- The closure `emit`.  `Ingest` stands for the call of `ingestor.Ingest`
with the captured endpoint, transport, client and toggles; only its error
result is used.  `totalNum` is a Go `int`; the count is taken without
wrap-around. -/
def emit {δ : Type} (Ingest : δ → Option GoError) (d : δ) (st : RunState) :
    RunState × Option GoError :=
  let st := { st with totalNum := st.totalNum + 1 }
  match Ingest d with
  | some err => (st, some (.base ("unable to ingest document: " ++ err.Error)))
  | none => (st, none)

/-- The closure `errHandler`: the new state and the returned boolean. -/
def errHandler (err : Option GoError) (st : RunState) : RunState × Bool :=
  match err with
  | none => (st, true)
  | some e =>
    let call : LogCall :=
      { level := .error, format := "certifier ended with error: %v", args := [.err e] }
    let st := { st with log := st.log ++ [call] }
    let st := { st with gotErr := true }
    (st, true)

/-- A sequence of `errHandler` calls, one per element of `errs`, in order:
the final state and the booleans returned. -/
def errHandlerCalls : List (Option GoError) → RunState → RunState × List Bool
  | [], st => (st, [])
  | err :: rest, st =>
    let r := errHandler err st
    let rs := errHandlerCalls rest r.1
    (rs.1, r.2 :: rs.2)

/-- The final summary, the `if gotErr` at the end of `Run`. -/
def finalSummary (gotErr : Bool) (totalNum : Int) : LogCall :=
  if gotErr then
    { level := .error, format := "completed ingestion with errors", args := [] }
  else
    { level := .info, format := "completed ingesting %v documents", args := [.int totalNum] }

/-- Which case of the `select` was taken: a signal `s` was received from
`sigs`, or a value was received from `done`. -/
inductive Winner where
  | signal (s : String)
  | done
  deriving DecidableEq, Repr

/-- What the main goroutine does from the `select` on, in order. -/
inductive Event where
  | log (c : LogCall)
  | cancel
  | wgWait
  deriving DecidableEq, Repr

/-- The shutdown sequence of `Run`: the `select`, `cf()`, `wg.Wait()` and the
final summary.  `final` is the state of the captured variables when
`wg.Wait()` has returned. -/
def shutdown (w : Winner) (final : RunState) : List Event :=
  let first : LogCall :=
    match w with
    | .signal s =>
      { level := .info, format := "Signal received: %s, shutting down gracefully\n",
        args := [.str s] }
    | .done => { level := .info, format := "All certifiers completed", args := [] }
  [.log first, .cancel, .wgWait, .log (finalSummary final.gotErr final.totalNum)]


/-- A call that `certify.Certify` makes of one of the two closures it is
given. -/
inductive Callback (δ : Type) where
  | emit (d : δ)
  | errHandler (err : Option GoError)

/-- One call of a closure: the state after it.  The value the closure returns
goes to `certify.Certify`. -/
def Callback.apply {δ : Type} (Ingest : δ → Option GoError) (st : RunState) : Callback δ → RunState
  | .emit d => (Guac.emit Ingest d st).1
  | .errHandler err => (Guac.errHandler err st).1

/-- The goroutine that `Run` starts: `certify.Certify`, which is declared in
another package and is given by the calls it makes of `emit` and
`errHandler`, in order, and by the error it returns; when that error is
non-nil the goroutine logs it. -/
def certifyGoroutine {δ : Type} (Ingest : δ → Option GoError) (calls : List (Callback δ))
    (certifyErr : Option GoError) (st : RunState) : RunState :=
  let st := calls.foldl (Callback.apply Ingest) st
  match certifyErr with
  | some err =>
    let call : LogCall :=
      { level := .error, format := "Unhandled error in the certifier: %s", args := [.err err] }
    { st with log := st.log ++ [call] }
  | none => st

/-- The events of `Run` from the `select` on, for a goroutine that makes the
given calls and returns the given error: the variables start at
`totalNum := 0; gotErr := false`, and the final summary reads them after
`wg.Wait()`. -/
def runShutdown {δ : Type} (Ingest : δ → Option GoError) (calls : List (Callback δ))
    (certifyErr : Option GoError) (w : Winner) : List Event :=
  shutdown w (certifyGoroutine Ingest calls certifyErr RunState.init)

/-- The number of `emit` calls among the calls of the closures. -/
def emitCount {δ : Type} : List (Callback δ) → Nat
  | [] => 0
  | .emit _ :: rest => emitCount rest + 1
  | .errHandler _ :: rest => emitCount rest

/-- Whether one of the calls is a call of `errHandler` with a non-nil error. -/
def handledError {δ : Type} : List (Callback δ) → Bool
  | [] => false
  | .emit _ :: rest => handledError rest
  | .errHandler err :: rest => err.isSome || handledError rest

/-! ## `pkg/handler/collector/oci/collector.go` -/

/-- A byte of a `[]byte`. -/
abbrev Byte := Fin 256

/-- The struct `processor.SourceInformation`, with the fields the collector
sets. -/
structure SourceInformation where
  Collector : String
  Source : String
  deriving DecidableEq, Repr

/-- The struct `processor.Document`, with the fields the collector sets.
`DocumentType` and `FormatType` are string types in package `processor`. -/
structure Document where
  Blob : List Byte
  Type' : String
  Format : String
  SourceInformation : SourceInformation
  deriving DecidableEq, Repr

/-- A `name.Reference`; the collector uses only its method `String()`. -/
structure Reference where
  String : String
  deriving DecidableEq, Repr

/-- An entry of the table `wellKnownOCIArtifactTypes`. -/
structure wellKnownArtifactType where
  documentType : String
  formatType : String
  deriving DecidableEq, Repr

/-- What `collector.go` uses and other files declare: the constants
`processor.DocumentUnknown`, `processor.FormatUnknown` and `OCICollector`,
and the map `wellKnownOCIArtifactTypes` (a lookup gives `none` when the key
is absent). -/
structure OCIDeps where
  DocumentUnknown : String
  FormatUnknown : String
  OCICollector : String
  wellKnownOCIArtifactTypes : String → Option wellKnownArtifactType

/-- The function `pushBlobData`: the channel after the send. -/
def pushBlobData (deps : OCIDeps) (ref : Reference) (blobData : List Byte)
    (artifactType : String) (docChannel : List Document) : List Document :=
  let docType := deps.DocumentUnknown
  let docFormat := deps.FormatUnknown
  let (docType, docFormat) :=
    match deps.wellKnownOCIArtifactTypes artifactType with
    | some wellKnownArtifactType =>
      (wellKnownArtifactType.documentType, wellKnownArtifactType.formatType)
    | none => (docType, docFormat)
  let doc : Document :=
    { Blob := blobData
      Type' := docType
      Format := docFormat
      SourceInformation :=
        { Collector := deps.OCICollector
          Source := ref.String } }
  docChannel ++ [doc]

/-- The `io.ReadCloser` that `layer.Compressed()` returns, by what
`io.ReadAll` gives on it: the bytes read and the error. -/
structure Blob where
  ReadAll : List Byte × Option GoError
  deriving DecidableEq, Repr

/-- A `v1.Layer`, by the results of the two methods called on it:
`Compressed()` and `MediaType()` (media type and error). -/
structure Layer where
  Compressed : Except GoError Blob
  MediaType : String × Option GoError

/-- A `v1.Descriptor`, with the field the collector reads. -/
structure Descriptor where
  MediaType : String
  deriving DecidableEq, Repr

/-- A `v1.Manifest`, with the field the collector reads. -/
structure Manifest where
  Config : Descriptor
  deriving DecidableEq, Repr

/-- A `v1.Image`, by the results of the two methods called on it. -/
structure Image where
  Manifest : Except GoError Manifest
  Layers : Except GoError (List Layer)

/-- The artifact type that the body of the loop in `collectLayersOfImage`
computes for a layer. -/
def layerArtifactType (manifest : Manifest) (layer : Layer) : String :=
  let artifactType := "unknown"
  let artifactType :=
    if manifest.Config.MediaType ≠ "" then manifest.Config.MediaType else artifactType
  match layer.MediaType with
  | (mediaType, none) => if mediaType ≠ "" then mediaType else artifactType
  | (_, some _) => artifactType

/-- The loop `for _, layer := range layers` of `collectLayersOfImage`: the
channel and the error when the loop is left.  The deferred `blob.Close()`
calls run when the function returns; they touch neither the channel nor the
result. -/
def collectLayersLoop (deps : OCIDeps) (ref : Reference) (manifest : Manifest) :
    List Layer → List Document → List Document × Option GoError
  | [], docChannel => (docChannel, none)
  | layer :: rest, docChannel =>
    match layer.Compressed with
    | .error err => (docChannel, some err)
    | .ok blob =>
      match blob.ReadAll with
      | (_, some err) => (docChannel, some (.wrap "failed reading blob: " err))
      | (blobData, none) =>
        collectLayersLoop deps ref manifest rest
          (pushBlobData deps ref blobData (layerArtifactType manifest layer) docChannel)

/-- The function `collectLayersOfImage`: the channel and the error on return. -/
def collectLayersOfImage (deps : OCIDeps) (ref : Reference) (img : Image)
    (docChannel : List Document) : List Document × Option GoError :=
  match img.Manifest with
  | .error err => (docChannel, some err)
  | .ok manifest =>
    match img.Layers with
    | .error err => (docChannel, some err)
    | .ok layers => collectLayersLoop deps ref manifest layers docChannel

/-! ### The fan-out `collect`

`collect` starts one goroutine per registered collector in an
`errgroup.Group` and waits for all of them.  The goroutines run concurrently;
the embedding is a step function on the state of the pass, driven by a
schedule that picks which goroutine moves next, and every statement about
`collect` is for every schedule.  A send on the channel is taken to succeed
(the channel has a consumer). -/

/-- How one call of `Collector.Collect` unfolds: it sends a document and goes
on, it looks whether its context is done and goes on one way or the other, or
it returns. -/
inductive Proc where
  | send (d : Document) (next : Proc)
  | ctxDone (whenDone : Proc) (otherwise : Proc)
  | ret (err : Option GoError)

/-- The interface `Collector`.  `ρ` is the type `remote.Option`; the context
and the channel are the state of the pass. -/
structure Collector (ρ : Type) where
  Collect : Reference → List ρ → Proc
  Type' : String

/-- A goroutine started by `g.Go`: its function has not begun yet (it still
has the logger call and the call of `Collect` before it), or it is inside
`collector.Collect`, with what is left of the call; `sent` records the
documents the call has sent so far, oldest first. -/
inductive Worker (ρ : Type) where
  | launched (collectorName : String) (collector : Collector ρ)
  | collecting (collectorName : String) (sent : List Document) (p : Proc)

/-- A goroutine that has returned: the collector it ran, the documents its
call of `Collect` sent, oldest first, and the error the call returned. -/
structure Returned where
  collectorName : String
  sent : List Document
  err : Option GoError
  deriving DecidableEq, Repr

/-- The state of one pass of `collect`: the goroutines that have not returned
yet, the channel (the documents sent, and whether it has been closed), the
fields of the `errgroup.Group` (`err`, set once by the first failure, and
whether the group has cancelled its context), the goroutines that have
returned, oldest first, and the logger calls. -/
structure PassState (ρ : Type) where
  workers : List (Worker ρ)
  docChannel : List Document
  closed : Bool
  err : Option GoError
  cancelled : Bool
  returned : List Returned
  log : List LogCall

/-- One move of the goroutine at position `i` among those still running.
`parentDone` says whether the context passed to `collect` is done at this
moment; the context the goroutines see is done when that one is or when the
group has cancelled.  A goroutine whose function returns a non-nil error runs
`g.errOnce.Do`, which stores the first such error and cancels. -/
def step {ρ : Type} (ref : Reference) (remoteOpts : List ρ) (parentDone : Bool) (i : Nat)
    (st : PassState ρ) : PassState ρ :=
  match st.workers.drop i with
  | [] => st
  | .launched collectorName collector :: post =>
    let call : LogCall :=
      { level := .info, format := "collecting artifacts from %s", args := [.str collectorName] }
    { st with
      workers := st.workers.take i ++
        .collecting collectorName [] (collector.Collect ref remoteOpts) :: post
      log := st.log ++ [call] }
  | .collecting collectorName sent (.send d next) :: post =>
    { st with
      workers := st.workers.take i ++ .collecting collectorName (sent ++ [d]) next :: post
      docChannel := st.docChannel ++ [d] }
  | .collecting collectorName sent (.ctxDone whenDone otherwise) :: post =>
    { st with
      workers := st.workers.take i ++
        .collecting collectorName sent
          (if parentDone || st.cancelled then whenDone else otherwise) :: post }
  | .collecting collectorName sent (.ret err) :: post =>
    let r : Returned := { collectorName := collectorName, sent := sent, err := err }
    let st := { st with
      workers := st.workers.take i ++ post
      returned := st.returned ++ [r] }
    match err, st.err with
    | some e, none => { st with err := some e, cancelled := true }
    | _, _ => st

/-- Whether the context passed to `collect` is done at time `t`, when it is
cancelled at time `cancelAt` (never, for `none`). -/
def parentDoneAt (cancelAt : Option Nat) (t : Nat) : Bool :=
  match cancelAt with
  | none => false
  | some c => decide (c ≤ t)

/-- The pass from time `t` on: while a goroutine is running, the one the
schedule picks moves.  `fuel` bounds the number of moves. -/
def run {ρ : Type} (ref : Reference) (remoteOpts : List ρ) (sched : Nat → Nat)
    (cancelAt : Option Nat) : Nat → Nat → PassState ρ → PassState ρ
  | 0, _, st => st
  | fuel + 1, t, st =>
    match st.workers with
    | [] => st
    | _ :: _ =>
      run ref remoteOpts sched cancelAt fuel (t + 1)
        (step ref remoteOpts (parentDoneAt cancelAt t) (sched t % st.workers.length) st)

/-- The number of moves a call of `Collect` has before it at most. -/
def Proc.size : Proc → Nat
  | .send _ next => next.size + 1
  | .ctxDone whenDone otherwise => whenDone.size + otherwise.size + 1
  | .ret _ => 1

/-- The number of moves a goroutine has before it at most. -/
def Worker.size {ρ : Type} (ref : Reference) (remoteOpts : List ρ) : Worker ρ → Nat
  | .launched _ collector => (collector.Collect ref remoteOpts).size + 1
  | .collecting _ _ p => p.size

/-- The number of moves a list of goroutines has before it at most. -/
def workersSize {ρ : Type} (ref : Reference) (remoteOpts : List ρ) (ws : List (Worker ρ)) : Nat :=
  (ws.map (Worker.size ref remoteOpts)).sum

/-- The state after the loop of `g.Go` calls: one goroutine per entry of the
map `collectors`, in the order the `range` gave them. -/
def launch {ρ : Type} (collectors : List (String × Collector ρ)) (docChannel : List Document)
    (closed : Bool) : PassState ρ :=
  { workers := collectors.map (fun e => .launched e.1 e.2)
    docChannel := docChannel
    closed := closed
    err := none
    cancelled := false
    returned := []
    log := [] }

/-- The function `collect`, for the entries of the map `collectors` in the
order the `range` gives them, a schedule of the goroutines, and the time at
which the caller's context is cancelled, if it is.  `g.Wait()` returns when
no goroutine is running any more: it cancels the context and returns `g.err`.
The result is the state of the pass at that point and the returned error;
`none` would mean that the goroutines did not all return within the bound. -/
def collect {ρ : Type} (collectors : List (String × Collector ρ)) (sched : Nat → Nat)
    (cancelAt : Option Nat) (ref : Reference) (docChannel : List Document) (closed : Bool)
    (remoteOpts : List ρ) : Option (PassState ρ × Option GoError) :=
  let st₀ := launch collectors docChannel closed
  let st := run ref remoteOpts sched cancelAt (workersSize ref remoteOpts st₀.workers) 0 st₀
  match st.workers with
  | [] => some ({ st with cancelled := true }, st.err)
  | _ :: _ => none

/-- What a call of `Collect` sends and returns when its context is never
done. -/
def Proc.live : Proc → List Document × Option GoError
  | .send d next => (d :: next.live.1, next.live.2)
  | .ctxDone _ otherwise => otherwise.live
  | .ret err => ([], err)

/-! ## Specification-side definitions

These follow the words of the specification and are what the functions above
are compared with. -/

/-- The document the specification describes for a reference, a payload and
an artifact type: the payload, the provenance of the OCI collector for the
reference, and the type and format of the table entry for the artifact type,
or the unknown defaults when the table has none. -/
def specDocument (deps : OCIDeps) (ref : Reference) (blobData : List Byte)
    (artifactType : String) : Document :=
  { Blob := blobData
    Type' := ((deps.wellKnownOCIArtifactTypes artifactType).map
      (fun e => e.documentType)).getD deps.DocumentUnknown
    Format := ((deps.wellKnownOCIArtifactTypes artifactType).map
      (fun e => e.formatType)).getD deps.FormatUnknown
    SourceInformation := { Collector := deps.OCICollector, Source := ref.String } }

/-- The artifact type the specification describes for a layer: the layer's
media type when it is available and non-empty, otherwise the manifest's
config media type when that is non-empty, otherwise `unknown`. -/
def specArtifactType (manifest : Manifest) (layer : Layer) : String :=
  if layer.MediaType.2 = none ∧ layer.MediaType.1 ≠ "" then layer.MediaType.1
  else if manifest.Config.MediaType ≠ "" then manifest.Config.MediaType
  else "unknown"

/-- The compressed bytes of a layer when the layer can be read: `Compressed()`
gives a reader and `io.ReadAll` reads it without error. -/
def Layer.compressedBytes (layer : Layer) : Option (List Byte) :=
  match layer.Compressed with
  | .error _ => none
  | .ok blob =>
    match blob.ReadAll with
    | (blobData, none) => some blobData
    | (_, some _) => none

/-- The document the specification describes for a layer of an image. -/
def specLayerDocument (deps : OCIDeps) (ref : Reference) (manifest : Manifest)
    (layer : Layer) : Document :=
  specDocument deps ref (layer.compressedBytes.getD []) (specArtifactType manifest layer)

/-- The documents a list of goroutines still has to send when the context is
never done, goroutine by goroutine. -/
def Worker.liveDocs {ρ : Type} (ref : Reference) (remoteOpts : List ρ) : Worker ρ → List Document
  | .launched _ collector => (collector.Collect ref remoteOpts).live.1
  | .collecting _ _ p => p.live.1

/-- What the call of `Collect` of a goroutine returns when the context is
never done. -/
def Worker.liveErr {ρ : Type} (ref : Reference) (remoteOpts : List ρ) : Worker ρ → Option GoError
  | .launched _ collector => (collector.Collect ref remoteOpts).live.2
  | .collecting _ _ p => p.live.2

/-- The name of the collector a goroutine runs. -/
def Worker.name {ρ : Type} : Worker ρ → String
  | .launched collectorName _ => collectorName
  | .collecting collectorName _ _ => collectorName

/-- The documents a goroutine has sent so far. -/
def Worker.sent {ρ : Type} : Worker ρ → List Document
  | .launched _ _ => []
  | .collecting _ sent _ => sent

/-- What a call of `Collect` sends and returns when its looks at the context
get the answers `obs`, in order, `true` for done; once the answers are used
up the context is taken not to be done. -/
def Proc.follow : List Bool → Proc → List Document × Option GoError
  | obs, .send d next => (d :: (Proc.follow obs next).1, (Proc.follow obs next).2)
  | [], .ctxDone _ otherwise => Proc.follow [] otherwise
  | true :: obs, .ctxDone whenDone _ => Proc.follow obs whenDone
  | false :: obs, .ctxDone _ otherwise => Proc.follow obs otherwise
  | _, .ret err => ([], err)

/-- Whether the context of the goroutines can have been done before time `t`
in a pass whose group has stored the error `err`: the caller cancelled before
`t`, or the group stored an error and cancelled. -/
def doneBy (cancelAt : Option Nat) (t : Nat) (err : Option GoError) : Prop :=
  (∃ c, cancelAt = some c ∧ c < t) ∨ err ≠ none

/-- A returned goroutine is the call of `Collect` of the registered collector
`c`: it has the collector's name, and the documents it sent and the error it
returned are what `c.Collect` sends and returns for some answers to its
looks at the context, none of which is `done` unless `mayBeDone`. -/
def Returned.isCallOf {ρ : Type} (ref : Reference) (remoteOpts : List ρ) (mayBeDone : Prop)
    (c : String × Collector ρ) (r : Returned) : Prop :=
  r.collectorName = c.1 ∧
  ∃ obs : List Bool, (c.2.Collect ref remoteOpts).follow obs = (r.sent, r.err) ∧
    (true ∈ obs → mayBeDone)

/-- A running goroutine is the call of `Collect` of the registered collector
`c`: it has not begun and is to run `c`, or it has the collector's name and,
for some answers `obs` to its looks at the context so far, what it has sent
followed by what is left of it is what `c.Collect` does after `obs`. -/
def Worker.isCallOf {ρ : Type} (ref : Reference) (remoteOpts : List ρ) (mayBeDone : Prop)
    (c : String × Collector ρ) : Worker ρ → Prop
  | .launched collectorName collector => collectorName = c.1 ∧ collector = c.2
  | .collecting collectorName sent p =>
    collectorName = c.1 ∧
    ∃ obs : List Bool, (true ∈ obs → mayBeDone) ∧
      ∀ rest : List Bool,
        (c.2.Collect ref remoteOpts).follow (obs ++ rest) =
          (sent ++ (p.follow rest).1, (p.follow rest).2)

/-! ## Concrete inputs

An instance of what `collector.go` takes from other files, an image, and
collectors, on which the functions above are evaluated. -/

/-- An instance of the constants and of the table of well-known artifact
types, with one entry. -/
def exampleOCIDeps : OCIDeps where
  DocumentUnknown := "UNKNOWN"
  FormatUnknown := "UNKNOWN"
  OCICollector := "OCICollector"
  wellKnownOCIArtifactTypes := fun artifactType =>
    if artifactType = "application/spdx+json" then
      some { documentType := "SPDX", formatType := "JSON" }
    else none

/-- A reference. -/
def exampleRef : Reference := { String := "ghcr.io/guacsec/guac:latest" }

/-- A manifest with a config media type. -/
def exampleManifest : Manifest :=
  { Config := { MediaType := "application/vnd.oci.image.config.v1+json" } }

/-- A readable layer with a media type of its own. -/
def spdxLayer : Layer :=
  { Compressed := .ok { ReadAll := ([1, 2, 3], none) }
    MediaType := ("application/spdx+json", none) }

/-- A readable layer with an empty media type. -/
def plainLayer : Layer :=
  { Compressed := .ok { ReadAll := ([4], none) }
    MediaType := ("", none) }

/-- A layer whose content cannot be opened. -/
def brokenLayer : Layer :=
  { Compressed := .error (.base "unexpected EOF")
    MediaType := ("application/spdx+json", none) }

/-- An image with two readable layers. -/
def exampleImage : Image :=
  { Manifest := .ok exampleManifest, Layers := .ok [spdxLayer, plainLayer] }

/-- An image whose second layer cannot be read. -/
def brokenImage : Image :=
  { Manifest := .ok exampleManifest, Layers := .ok ([spdxLayer] ++ brokenLayer :: [plainLayer]) }

/-- An image whose manifest cannot be read. -/
def noManifestImage : Image :=
  { Manifest := .error (.base "manifest unknown"), Layers := .ok [spdxLayer] }

/-- An image whose layer list cannot be read. -/
def noLayersImage : Image :=
  { Manifest := .ok exampleManifest, Layers := .error (.base "layers unknown") }

/-- A document with the given payload, as the OCI collector would send it. -/
def exampleDoc (blobData : List Byte) : Document :=
  specDocument exampleOCIDeps exampleRef blobData "application/spdx+json"

/-- A collector that sends one document, looks at its context, and then
either gives up with the context's error or sends a second document. -/
def layersCollector : Collector Unit where
  Collect := fun _ _ =>
    .send (exampleDoc [1]) (.ctxDone (.ret (some (.base "context canceled")))
      (.send (exampleDoc [2]) (.ret none)))
  Type' := "layers"

/-- A collector that sends one document. -/
def referrersCollector : Collector Unit where
  Collect := fun _ _ => .send (exampleDoc [3]) (.ret none)
  Type' := "referrers"

/-- A collector that fails at once. -/
def failingCollector : Collector Unit where
  Collect := fun _ _ => .ret (some (.base "registry unavailable"))
  Type' := "failing"

/-- Two registered collectors that succeed. -/
def exampleCollectors : List (String × Collector Unit) :=
  [("layers", layersCollector), ("referrers", referrersCollector)]

/-- Three registered collectors, one of which fails. -/
def failingCollectors : List (String × Collector Unit) :=
  [("layers", layersCollector), ("failing", failingCollector),
   ("referrers", referrersCollector)]

/-- The schedule that lets the goroutines move in turn. -/
def roundRobin : Nat → Nat := fun t => t

/-! ## Theorems: `validateScorecardFlags` -/

/-- How `validateScorecardFlags` ends, case by case. -/
theorem validateScorecardFlags_cases {κ : Type} (deps : FlagDeps κ)
    (graphqlEndpoint headerFile csubAddr interval : String)
    (csubTls csubTlsSkipVerify poll queryVulnIngestion queryLicenseIngestion : Bool)
    (certifierLatencyStr : String) (batchSize : Int) (addVulnMetadata : Bool) :
    let r := validateScorecardFlags deps graphqlEndpoint headerFile csubAddr interval csubTls
      csubTlsSkipVerify poll queryVulnIngestion queryLicenseIngestion certifierLatencyStr
      batchSize addVulnMetadata
    (certifierLatencyStr ≠ "" ∧ (∃ e, deps.ParseDuration certifierLatencyStr = .error e) ∧
        r.2 ≠ none) ∨
    ((certifierLatencyStr = "" ∨ ∃ d, deps.ParseDuration certifierLatencyStr = .ok d) ∧
      ((∃ e, deps.ValidateCsubClientFlags csubAddr csubTls csubTlsSkipVerify = .error e) ∧
        r.2 ≠ none ∨
       ∃ o, deps.ValidateCsubClientFlags csubAddr csubTls csubTlsSkipVerify = .ok o ∧
        ((∃ e, deps.ParseDuration interval = .error e) ∧ r.2 ≠ none ∨
         ∃ i, deps.ParseDuration interval = .ok i ∧ r.2 = none ∧
          r.1 =
            { graphqlEndpoint := graphqlEndpoint
              headerFile := headerFile
              poll := poll
              interval := i
              csubClientOptions := o
              queryVulnOnIngestion := queryVulnIngestion
              addVulnMetadata := addVulnMetadata
              queryLicenseOnIngestion := queryLicenseIngestion
              addedLatency :=
                if certifierLatencyStr = "" then none
                else (deps.ParseDuration certifierLatencyStr).toOption
              batchSize := batchSize }))) := by
  intro r
  by_cases hl : certifierLatencyStr = ""
  · right
    refine ⟨Or.inl hl, ?_⟩
    cases hc : deps.ValidateCsubClientFlags csubAddr csubTls csubTlsSkipVerify with
    | error e => left; exact ⟨⟨e, rfl⟩, by simp [r, validateScorecardFlags, hl, hc]⟩
    | ok o =>
      right
      refine ⟨o, rfl, ?_⟩
      cases hi : deps.ParseDuration interval with
      | error e => left; exact ⟨⟨e, rfl⟩, by simp [r, validateScorecardFlags, hl, hc, hi]⟩
      | ok i =>
        right
        exact ⟨i, rfl, by simp [r, validateScorecardFlags, hl, hc, hi],
          by simp [r, validateScorecardFlags, hl, hc, hi, scorecardOptions.zero]⟩
  · cases hp : deps.ParseDuration certifierLatencyStr with
    | error e => left; exact ⟨hl, ⟨e, rfl⟩, by simp [r, validateScorecardFlags, hl, hp]⟩
    | ok d =>
      right
      refine ⟨Or.inr ⟨d, rfl⟩, ?_⟩
      cases hc : deps.ValidateCsubClientFlags csubAddr csubTls csubTlsSkipVerify with
      | error e => left; exact ⟨⟨e, rfl⟩, by simp [r, validateScorecardFlags, hl, hp, hc]⟩
      | ok o =>
        right
        refine ⟨o, rfl, ?_⟩
        cases hi : deps.ParseDuration interval with
        | error e =>
          left; exact ⟨⟨e, rfl⟩, by simp [r, validateScorecardFlags, hl, hp, hc, hi]⟩
        | ok i =>
          right
          exact ⟨i, rfl, by simp [r, validateScorecardFlags, hl, hp, hc, hi],
            by simp [r, validateScorecardFlags, hl, hp, hc, hi, scorecardOptions.zero,
              Except.toOption]⟩

/-- C1 (as stated, refuted): with batch size `-1`, which is not positive, and
every other flag valid, `validateScorecardFlags` returns a nil error. -/
theorem validateScorecardFlags_nonpositive_batchSize_not_rejected :
    ¬ ((-1 : Int) ≤ 0 →
        (validateScorecardFlags exampleDeps "http://localhost:8080/query" "" "localhost:2782"
          "5m" false false true false false "1s" (-1) false).2 ≠ none) := by
  intro h
  exact h (by decide) rfl

/-- C1 (amended): `validateScorecardFlags` does not check the batch size.
For all flags, valid or not, the error it returns is the same for every two
batch sizes, and so are the returned options apart from the field
`batchSize`; whenever it returns a nil error the returned options hold the
batch size unchanged; and when the other flags are valid (the latency string
is empty or parses, the collect-subscription flags validate, the interval
parses) it returns a nil error for every batch size, the non-positive ones
included. -/
theorem validateScorecardFlags_batchSize_unchecked {κ : Type} (deps : FlagDeps κ)
    (graphqlEndpoint headerFile csubAddr interval : String)
    (csubTls csubTlsSkipVerify poll queryVulnIngestion queryLicenseIngestion : Bool)
    (certifierLatencyStr : String) (batchSize : Int) (addVulnMetadata : Bool) :
    (∀ batchSize' : Int,
      (validateScorecardFlags deps graphqlEndpoint headerFile csubAddr interval csubTls
        csubTlsSkipVerify poll queryVulnIngestion queryLicenseIngestion certifierLatencyStr
        batchSize' addVulnMetadata).2 =
      (validateScorecardFlags deps graphqlEndpoint headerFile csubAddr interval csubTls
        csubTlsSkipVerify poll queryVulnIngestion queryLicenseIngestion certifierLatencyStr
        batchSize addVulnMetadata).2 ∧
      { (validateScorecardFlags deps graphqlEndpoint headerFile csubAddr interval csubTls
        csubTlsSkipVerify poll queryVulnIngestion queryLicenseIngestion certifierLatencyStr
        batchSize' addVulnMetadata).1 with batchSize := 0 } =
      { (validateScorecardFlags deps graphqlEndpoint headerFile csubAddr interval csubTls
        csubTlsSkipVerify poll queryVulnIngestion queryLicenseIngestion certifierLatencyStr
        batchSize addVulnMetadata).1 with batchSize := 0 }) ∧
    ((validateScorecardFlags deps graphqlEndpoint headerFile csubAddr interval csubTls
        csubTlsSkipVerify poll queryVulnIngestion queryLicenseIngestion certifierLatencyStr
        batchSize addVulnMetadata).2 = none →
      (validateScorecardFlags deps graphqlEndpoint headerFile csubAddr interval csubTls
        csubTlsSkipVerify poll queryVulnIngestion queryLicenseIngestion certifierLatencyStr
        batchSize addVulnMetadata).1.batchSize = batchSize) ∧
    ((certifierLatencyStr = "" ∨ ∃ d, deps.ParseDuration certifierLatencyStr = .ok d) →
      (∃ o, deps.ValidateCsubClientFlags csubAddr csubTls csubTlsSkipVerify = .ok o) →
      (∃ i, deps.ParseDuration interval = .ok i) →
      (validateScorecardFlags deps graphqlEndpoint headerFile csubAddr interval csubTls
        csubTlsSkipVerify poll queryVulnIngestion queryLicenseIngestion certifierLatencyStr
        batchSize addVulnMetadata).2 = none ∧
      (validateScorecardFlags deps graphqlEndpoint headerFile csubAddr interval csubTls
        csubTlsSkipVerify poll queryVulnIngestion queryLicenseIngestion certifierLatencyStr
        batchSize addVulnMetadata).1.batchSize = batchSize) := by
  refine ⟨?_, ?_, ?_⟩
  · intro batchSize'
    by_cases hl : certifierLatencyStr = ""
    · cases hc : deps.ValidateCsubClientFlags csubAddr csubTls csubTlsSkipVerify with
      | error e => simp [validateScorecardFlags, hl, hc]
      | ok o =>
        cases hi : deps.ParseDuration interval with
        | error e => simp [validateScorecardFlags, hl, hc, hi]
        | ok i => simp [validateScorecardFlags, hl, hc, hi]
    · cases hp : deps.ParseDuration certifierLatencyStr with
      | error e => simp [validateScorecardFlags, hl, hp]
      | ok d =>
        cases hc : deps.ValidateCsubClientFlags csubAddr csubTls csubTlsSkipVerify with
        | error e => simp [validateScorecardFlags, hl, hp, hc]
        | ok o =>
          cases hi : deps.ParseDuration interval with
          | error e => simp [validateScorecardFlags, hl, hp, hc, hi]
          | ok i => simp [validateScorecardFlags, hl, hp, hc, hi]
  · intro hnil
    have h := validateScorecardFlags_cases deps graphqlEndpoint headerFile csubAddr interval
      csubTls csubTlsSkipVerify poll queryVulnIngestion queryLicenseIngestion
      certifierLatencyStr batchSize addVulnMetadata
    simp only at h
    rcases h with ⟨-, -, hr⟩ | ⟨-, ⟨-, hr⟩ | ⟨o, -, ⟨-, hr⟩ | ⟨i, -, -, hopts⟩⟩⟩
    · exact absurd hnil hr
    · exact absurd hnil hr
    · exact absurd hnil hr
    · rw [hopts]
  · intro hlatency hcsub hinterval
    obtain ⟨o, ho⟩ := hcsub
    obtain ⟨i, hi⟩ := hinterval
    rcases hlatency with hl | ⟨d, hd⟩
    · simp [validateScorecardFlags, hl, ho, hi]
    · by_cases hl : certifierLatencyStr = ""
      · simp [validateScorecardFlags, hl, ho, hi]
      · simp [validateScorecardFlags, hl, hd, ho, hi]

/-- C1 (amended), at batch size `0` with the flags `5m` and `1s`, and, for
the error, at batch size `0` with the interval `5x`, which does not parse. -/
theorem validateScorecardFlags_batchSize_unchecked_witness :
    ((validateScorecardFlags exampleDeps "http://localhost:8080/query" "" "localhost:2782"
      "5m" false false true false false "1s" 0 false).2 = none ∧
    (validateScorecardFlags exampleDeps "http://localhost:8080/query" "" "localhost:2782"
      "5m" false false true false false "1s" 0 false).1.batchSize = 0) ∧
    (validateScorecardFlags exampleDeps "http://localhost:8080/query" "" "localhost:2782"
      "5m" false false true false false "1s" 0 false).1.batchSize = 0 ∧
    (validateScorecardFlags exampleDeps "http://localhost:8080/query" "" "localhost:2782"
      "5x" false false true false false "1s" 0 false).2 ≠ none ∧
    ∀ batchSize' : Int,
      (validateScorecardFlags exampleDeps "http://localhost:8080/query" "" "localhost:2782"
        "5x" false false true false false "1s" batchSize' false).2 =
      (validateScorecardFlags exampleDeps "http://localhost:8080/query" "" "localhost:2782"
        "5x" false false true false false "1s" 0 false).2 :=
  ⟨(validateScorecardFlags_batchSize_unchecked exampleDeps "http://localhost:8080/query" ""
      "localhost:2782" "5m" false false true false false "1s" 0 false).2.2
      (Or.inr ⟨1000000000, rfl⟩) ⟨⟨"localhost:2782", false, false⟩, rfl⟩ ⟨300000000000, rfl⟩,
   (validateScorecardFlags_batchSize_unchecked exampleDeps "http://localhost:8080/query" ""
      "localhost:2782" "5m" false false true false false "1s" 0 false).2.1 rfl,
   by decide,
   fun batchSize' =>
    ((validateScorecardFlags_batchSize_unchecked exampleDeps "http://localhost:8080/query" ""
      "localhost:2782" "5x" false false true false false "1s" 0 false).1 batchSize').1⟩

/-- C2: `validateScorecardFlags` returns a non-nil error if and only if the
latency string is non-empty and does not parse, or the collect-subscription
flags do not validate, or the interval does not parse; for both values of
`poll`, and an empty latency string is no cause of error. -/
theorem validateScorecardFlags_error_iff {κ : Type} (deps : FlagDeps κ)
    (graphqlEndpoint headerFile csubAddr interval : String)
    (csubTls csubTlsSkipVerify poll queryVulnIngestion queryLicenseIngestion : Bool)
    (certifierLatencyStr : String) (batchSize : Int) (addVulnMetadata : Bool) :
    (validateScorecardFlags deps graphqlEndpoint headerFile csubAddr interval csubTls
      csubTlsSkipVerify poll queryVulnIngestion queryLicenseIngestion certifierLatencyStr
      batchSize addVulnMetadata).2 ≠ none ↔
    ((certifierLatencyStr ≠ "" ∧ ∃ e, deps.ParseDuration certifierLatencyStr = .error e) ∨
     (∃ e, deps.ValidateCsubClientFlags csubAddr csubTls csubTlsSkipVerify = .error e) ∨
     (∃ e, deps.ParseDuration interval = .error e)) := by
  have h := validateScorecardFlags_cases deps graphqlEndpoint headerFile csubAddr interval
    csubTls csubTlsSkipVerify poll queryVulnIngestion queryLicenseIngestion certifierLatencyStr
    batchSize addVulnMetadata
  simp only at h
  rcases h with ⟨hne, hp, hr⟩ | ⟨hl, ⟨hc, hr⟩ | ⟨o, ho, ⟨hi, hr⟩ | ⟨i, hi, hr, -⟩⟩⟩
  · exact ⟨fun _ => Or.inl ⟨hne, hp⟩, fun _ => hr⟩
  · exact ⟨fun _ => Or.inr (Or.inl hc), fun _ => hr⟩
  · exact ⟨fun _ => Or.inr (Or.inr hi), fun _ => hr⟩
  · constructor
    · intro hcontra; exact absurd hr hcontra
    · rintro (⟨hne, e, he⟩ | ⟨e, he⟩ | ⟨e, he⟩)
      · rcases hl with hl | ⟨d, hd⟩
        · exact absurd hl hne
        · rw [hd] at he; cases he
      · rw [ho] at he; cases he
      · rw [hi] at he; cases he

/-- C3: when `validateScorecardFlags` returns a nil error, the returned
options hold the endpoint, the header file, `poll`, the batch size and the
three toggles as given, the interval is the parsed interval string, and the
added latency is absent exactly when the latency string is empty and is
otherwise the parsed latency string. -/
theorem validateScorecardFlags_options {κ : Type} (deps : FlagDeps κ)
    (graphqlEndpoint headerFile csubAddr interval : String)
    (csubTls csubTlsSkipVerify poll queryVulnIngestion queryLicenseIngestion : Bool)
    (certifierLatencyStr : String) (batchSize : Int) (addVulnMetadata : Bool)
    (hnil : (validateScorecardFlags deps graphqlEndpoint headerFile csubAddr interval csubTls
      csubTlsSkipVerify poll queryVulnIngestion queryLicenseIngestion certifierLatencyStr
      batchSize addVulnMetadata).2 = none) :
    let opts := (validateScorecardFlags deps graphqlEndpoint headerFile csubAddr interval
      csubTls csubTlsSkipVerify poll queryVulnIngestion queryLicenseIngestion
      certifierLatencyStr batchSize addVulnMetadata).1
    opts.graphqlEndpoint = graphqlEndpoint ∧ opts.headerFile = headerFile ∧
    opts.poll = poll ∧ opts.batchSize = batchSize ∧
    opts.queryVulnOnIngestion = queryVulnIngestion ∧
    opts.queryLicenseOnIngestion = queryLicenseIngestion ∧
    opts.addVulnMetadata = addVulnMetadata ∧
    deps.ParseDuration interval = .ok opts.interval ∧
    (opts.addedLatency = none ↔ certifierLatencyStr = "") ∧
    (certifierLatencyStr ≠ "" →
      ∃ d, deps.ParseDuration certifierLatencyStr = .ok d ∧ opts.addedLatency = some d) ∧
    deps.ValidateCsubClientFlags csubAddr csubTls csubTlsSkipVerify =
      .ok opts.csubClientOptions := by
  have h := validateScorecardFlags_cases deps graphqlEndpoint headerFile csubAddr interval
    csubTls csubTlsSkipVerify poll queryVulnIngestion queryLicenseIngestion certifierLatencyStr
    batchSize addVulnMetadata
  simp only at h
  rcases h with ⟨-, -, hr⟩ | ⟨hl, ⟨-, hr⟩ | ⟨o, ho, ⟨-, hr⟩ | ⟨i, hi, -, hopts⟩⟩⟩
  · exact absurd hnil hr
  · exact absurd hnil hr
  · exact absurd hnil hr
  · intro opts
    have hopts' : opts = _ := hopts
    rw [hopts']
    refine ⟨rfl, rfl, rfl, rfl, rfl, rfl, rfl, hi, ?_, ?_, ho⟩
    · rcases hl with hl | ⟨d, hd⟩
      · simp [hl]
      · by_cases hl : certifierLatencyStr = ""
        · simp [hl]
        · simp [hl, hd, Except.toOption]
    · intro hne
      rcases hl with hl | ⟨d, hd⟩
      · exact absurd hl hne
      · exact ⟨d, hd, by simp [hne, hd, Except.toOption]⟩

/-- C3, at the flags `5m` and `1s` with batch size `60000`. -/
theorem validateScorecardFlags_options_witness :
    let opts := (validateScorecardFlags exampleDeps "http://localhost:8080/query" "headers.txt"
      "localhost:2782" "5m" false false true true false "1s" 60000 true).1
    opts.graphqlEndpoint = "http://localhost:8080/query" ∧ opts.headerFile = "headers.txt" ∧
    opts.poll = true ∧ opts.batchSize = 60000 ∧
    opts.queryVulnOnIngestion = true ∧
    opts.queryLicenseOnIngestion = false ∧
    opts.addVulnMetadata = true ∧
    exampleDeps.ParseDuration "5m" = .ok opts.interval ∧
    (opts.addedLatency = none ↔ "1s" = "") ∧
    ("1s" ≠ "" →
      ∃ d, exampleDeps.ParseDuration "1s" = .ok d ∧ opts.addedLatency = some d) ∧
    exampleDeps.ValidateCsubClientFlags "localhost:2782" false false =
      .ok opts.csubClientOptions :=
  validateScorecardFlags_options exampleDeps "http://localhost:8080/query" "headers.txt"
    "localhost:2782" "5m" false false true true false "1s" 60000 true rfl

/-! ## Theorems: the closures and the shutdown sequence of `Run` -/

/-- The flag `gotErr` after a sequence of `errHandler` calls: it is set when
it was set before or one of the calls had a non-nil error. -/
theorem errHandlerCalls_gotErr (errs : List (Option GoError)) (st : RunState) :
    (errHandlerCalls errs st).1.gotErr = (st.gotErr || errs.any Option.isSome) := by
  induction errs generalizing st with
  | nil => simp [errHandlerCalls]
  | cons err rest ih =>
    cases err with
    | none => simp [errHandlerCalls, errHandler, ih]
    | some e => simp [errHandlerCalls, errHandler, ih]

/-- Every call in a sequence of `errHandler` calls returns true. -/
theorem errHandlerCalls_all_true (errs : List (Option GoError)) (st : RunState) :
    ∀ b ∈ (errHandlerCalls errs st).2, b = true := by
  induction errs generalizing st with
  | nil => simp [errHandlerCalls]
  | cons err rest ih =>
    intro b hb
    simp only [errHandlerCalls, List.mem_cons] at hb
    rcases hb with hb | hb
    · rw [hb]; cases err <;> rfl
    · exact ih _ b hb

/-- C7: `errHandler` returns true for every argument, nil or not; it sets
`gotErr` when the error is non-nil and leaves the state as it is when the
error is nil; so after any sequence of calls, started with `gotErr` false,
`gotErr` is true if and only if one of the calls had a non-nil error, and
every call of the sequence returned true. -/
theorem errHandler_always_continues :
    (∀ (err : Option GoError) (st : RunState), (errHandler err st).2 = true) ∧
    (∀ (e : GoError) (st : RunState), (errHandler (some e) st).1.gotErr = true) ∧
    (∀ st : RunState, (errHandler none st).1 = st) ∧
    (∀ errs : List (Option GoError),
      ((errHandlerCalls errs RunState.init).1.gotErr = true ↔ ∃ err ∈ errs, err ≠ none) ∧
      (errHandlerCalls errs RunState.init).2 = List.replicate errs.length true) := by
  refine ⟨?_, ?_, ?_, ?_⟩
  · intro err st; cases err <;> rfl
  · intro e st; rfl
  · intro st; rfl
  · intro errs
    constructor
    · rw [errHandlerCalls_gotErr]
      simp [RunState.init, Option.isSome_iff_ne_none]
    · have hlen : ∀ (l : List (Option GoError)) (st : RunState),
          (errHandlerCalls l st).2.length = l.length := by
        intro l
        induction l with
        | nil => intro st; rfl
        | cons a l ih => intro st; simp [errHandlerCalls, ih]
      rw [List.eq_replicate_iff]
      exact ⟨hlen errs _, errHandlerCalls_all_true errs _⟩

/-- Each call of `emit` adds one to `totalNum`, whatever the ingestion gives. -/
theorem emit_totalNum {δ : Type} (Ingest : δ → Option GoError) (d : δ) (st : RunState) :
    (emit Ingest d st).1.totalNum = st.totalNum + 1 ∧
    (emit Ingest d st).1.gotErr = st.gotErr := by
  unfold emit
  cases Ingest d <;> simp

/-- C8 (as stated, refuted): with `gotErr` true the final summary is the same
for the totals 3 and 4, and the total 3 is not among its arguments: it does
not state the total. -/
theorem finalSummary_with_errors_omits_total :
    finalSummary true 3 = finalSummary true 4 ∧
    LogArg.int 3 ∉ (finalSummary true 3).args := by
  constructor
  · rfl
  · simp [finalSummary]

/-- The variables after the calls of the closures: `totalNum` has grown by
the number of `emit` calls, and `gotErr` is set when it was set before or
`errHandler` was called with a non-nil error. -/
theorem foldl_apply {δ : Type} (Ingest : δ → Option GoError) (calls : List (Callback δ))
    (st : RunState) :
    (calls.foldl (Callback.apply Ingest) st).totalNum = st.totalNum + emitCount calls ∧
    (calls.foldl (Callback.apply Ingest) st).gotErr = (st.gotErr || handledError calls) := by
  induction calls generalizing st with
  | nil => simp [emitCount, handledError]
  | cons c rest ih =>
    cases c with
    | emit d =>
      obtain ⟨h₁, h₂⟩ := emit_totalNum Ingest d st
      simp only [List.foldl_cons, Callback.apply, emitCount, handledError]
      rw [(ih _).1, (ih _).2, h₁, h₂]
      exact ⟨by push_cast; ring, rfl⟩
    | errHandler err =>
      simp only [List.foldl_cons, Callback.apply, emitCount, handledError]
      rw [(ih _).1, (ih _).2]
      cases err with
      | none => simp [errHandler]
      | some e => simp [errHandler]

/-- The variables when the goroutine of `Run` has ended. -/
theorem certifyGoroutine_final {δ : Type} (Ingest : δ → Option GoError)
    (calls : List (Callback δ)) (certifyErr : Option GoError) :
    (certifyGoroutine Ingest calls certifyErr RunState.init).totalNum = emitCount calls ∧
    (certifyGoroutine Ingest calls certifyErr RunState.init).gotErr = handledError calls := by
  obtain ⟨h₁, h₂⟩ := foldl_apply Ingest calls RunState.init
  cases certifyErr with
  | none => simpa [certifyGoroutine, RunState.init] using And.intro h₁ h₂
  | some e => simpa [certifyGoroutine, RunState.init] using And.intro h₁ h₂

/-- C8 (amended): `totalNum` grows by exactly one per `emit` call, whatever
the ingestion gives, so at the end of a run it is the number of `emit` calls.
The final summary is the last thing `Run` does; what it states is whether
`errHandler` was called with a non-nil error during the run, which is what
`gotErr` records: neither an error that `emit` returns nor the error that
`certify.Certify` returns changes it.  When there was no such call the
summary is `completed ingesting %v documents` with the number of `emit`
calls as its argument; when there was one it is
`completed ingestion with errors`, without argument. -/
theorem finalSummary_states {δ : Type} (Ingest : δ → Option GoError)
    (calls : List (Callback δ)) (certifyErr : Option GoError) (w : Winner) :
    (∀ (d : δ) (st : RunState), (emit Ingest d st).1.totalNum = st.totalNum + 1) ∧
    (certifyGoroutine Ingest calls certifyErr RunState.init).totalNum = emitCount calls ∧
    ((certifyGoroutine Ingest calls certifyErr RunState.init).gotErr = true ↔
      ∃ e, Callback.errHandler (some e) ∈ calls) ∧
    (∀ (gotErr : Bool) (totalNum : Int),
      ((finalSummary gotErr totalNum).level = .error ↔ gotErr = true)) ∧
    ((¬ ∃ e, Callback.errHandler (some e) ∈ calls) →
      (runShutdown Ingest calls certifyErr w).getLast? =
        some (.log { level := .info, format := "completed ingesting %v documents",
                     args := [.int (emitCount calls)] })) ∧
    ((∃ e, Callback.errHandler (some e) ∈ calls) →
      (runShutdown Ingest calls certifyErr w).getLast? =
        some (.log { level := .error, format := "completed ingestion with errors",
                     args := [] })) := by
  obtain ⟨htotal, hgot⟩ := certifyGoroutine_final Ingest calls certifyErr
  have hiff : handledError calls = true ↔ ∃ e, Callback.errHandler (some e) ∈ calls := by
    clear htotal hgot
    induction calls with
    | nil => simp [handledError]
    | cons c rest ih =>
      cases c with
      | emit d => simp [handledError, ih]
      | errHandler err =>
        cases err with
        | none => simp [handledError, ih]
        | some e => simp [handledError]
  refine ⟨fun d st => (emit_totalNum Ingest d st).1, htotal, by rw [hgot]; exact hiff, ?_, ?_, ?_⟩
  · intro gotErr totalNum; cases gotErr <;> simp [finalSummary]
  · intro hno
    have hfalse : handledError calls = false := by
      cases h : handledError calls with
      | false => rfl
      | true => exact absurd (hiff.mp h) hno
    simp [runShutdown, shutdown, hgot, htotal, hfalse, finalSummary]
  · intro hsome
    simp [runShutdown, shutdown, hgot, hiff.mpr hsome, finalSummary]

/-- C8 (amended), for a run of three `emit` calls whose ingestion fails and a
`certify.Certify` that returns an error, without a call of `errHandler`, and
for a run with one call of `errHandler` with an error. -/
theorem finalSummary_states_witness :
    (runShutdown (fun _ : Nat => some (GoError.base "connection refused"))
      [.emit 1, .emit 2, .emit 3] (some (.base "certifier failed")) Winner.done).getLast? =
      some (.log { level := .info, format := "completed ingesting %v documents",
                   args := [.int (emitCount [Callback.emit 1, .emit 2, .emit 3])] }) ∧
    (runShutdown (fun _ : Nat => none)
      [.emit 1, .errHandler (some (.base "query failed")), .emit 2] none
      (Winner.signal "interrupt")).getLast? =
      some (.log { level := .error, format := "completed ingestion with errors",
                   args := [] }) :=
  ⟨(finalSummary_states (fun _ : Nat => some (GoError.base "connection refused"))
      [.emit 1, .emit 2, .emit 3] (some (.base "certifier failed")) Winner.done).2.2.2.2.1
      (by simp),
   (finalSummary_states (fun _ : Nat => none)
      [.emit 1, .errHandler (some (.base "query failed")), .emit 2] none
      (Winner.signal "interrupt")).2.2.2.2.2 ⟨.base "query failed", by simp⟩⟩

/-- C9 (as stated, refuted): when `done` wins the race, `cf()` is still
called, and it comes before the final summary in the sequence. -/
theorem shutdown_done_cancels_before_report :
    ∃ i j : Nat, i < j ∧
      (shutdown Winner.done RunState.init)[i]? = some Event.cancel ∧
      (shutdown Winner.done RunState.init)[j]? =
        some (Event.log (finalSummary RunState.init.gotErr RunState.init.totalNum)) :=
  ⟨1, 3, by decide, rfl, rfl⟩

/-- C9 (amended): in both cases of the `select`, a signal or `done`, the
sequence is the same after the first logger call: `cf()` is called, exactly
once, then `wg.Wait()`, and the final summary comes last, after the join. -/
theorem shutdown_sequence (w : Winner) (final : RunState) :
    (∃ first : LogCall,
      shutdown w final =
        [.log first, .cancel, .wgWait, .log (finalSummary final.gotErr final.totalNum)]) ∧
    (shutdown w final).count .cancel = 1 ∧
    (shutdown w final).count .wgWait = 1 := by
  cases w <;> refine ⟨⟨_, rfl⟩, ?_, ?_⟩ <;> simp [shutdown, List.count_cons]

/-! ## Theorems: `pushBlobData` and `collectLayersOfImage` -/

/-- The function `pushBlobData` sends the document of the specification. -/
theorem pushBlobData_eq (deps : OCIDeps) (ref : Reference) (blobData : List Byte)
    (artifactType : String) (docChannel : List Document) :
    pushBlobData deps ref blobData artifactType docChannel =
      docChannel ++ [specDocument deps ref blobData artifactType] := by
  unfold pushBlobData specDocument
  cases deps.wellKnownOCIArtifactTypes artifactType <;> rfl

/-- The artifact type the loop computes is the one the specification
describes. -/
theorem layerArtifactType_eq (manifest : Manifest) (layer : Layer) :
    layerArtifactType manifest layer = specArtifactType manifest layer := by
  unfold layerArtifactType specArtifactType
  rcases h : layer.MediaType with ⟨mediaType, err⟩
  cases err with
  | none =>
    by_cases hm : mediaType = ""
    · simp [hm]
    · simp [hm]
  | some e => simp

/-- C4: `pushBlobData` appends exactly one document to the channel; its
payload is `blobData`, its provenance is the OCI collector and `ref.String()`,
and its type and format are those of the table entry for `artifactType` when
there is one and the unknown defaults when there is none. -/
theorem pushBlobData_appends_one (deps : OCIDeps) (ref : Reference) (blobData : List Byte)
    (artifactType : String) (docChannel : List Document) :
    ∃ doc : Document,
      pushBlobData deps ref blobData artifactType docChannel = docChannel ++ [doc] ∧
      doc.Blob = blobData ∧
      doc.SourceInformation = { Collector := deps.OCICollector, Source := ref.String } ∧
      (∀ e, deps.wellKnownOCIArtifactTypes artifactType = some e →
        doc.Type' = e.documentType ∧ doc.Format = e.formatType) ∧
      (deps.wellKnownOCIArtifactTypes artifactType = none →
        doc.Type' = deps.DocumentUnknown ∧ doc.Format = deps.FormatUnknown) := by
  refine ⟨specDocument deps ref blobData artifactType, pushBlobData_eq _ _ _ _ _, rfl, rfl,
    ?_, ?_⟩
  · intro e he; simp [specDocument, he]
  · intro he; simp [specDocument, he]


/-- C4, for an artifact type the table has and for one it has not. -/
theorem pushBlobData_appends_one_witness :
    (∃ doc : Document,
      pushBlobData exampleOCIDeps exampleRef [1, 2, 3] "application/spdx+json" [] =
        [] ++ [doc] ∧
      doc.Blob = [1, 2, 3] ∧
      doc.SourceInformation =
        { Collector := "OCICollector", Source := "ghcr.io/guacsec/guac:latest" } ∧
      doc.Type' = "SPDX" ∧ doc.Format = "JSON") ∧
    (∃ doc : Document,
      pushBlobData exampleOCIDeps exampleRef [4] "application/octet-stream" [] = [] ++ [doc] ∧
      doc.Blob = [4] ∧
      doc.SourceInformation =
        { Collector := "OCICollector", Source := "ghcr.io/guacsec/guac:latest" } ∧
      doc.Type' = "UNKNOWN" ∧ doc.Format = "UNKNOWN") :=
  ⟨match pushBlobData_appends_one exampleOCIDeps exampleRef [1, 2, 3]
      "application/spdx+json" [] with
    | ⟨doc, h₁, h₂, h₃, h₄, _⟩ =>
      ⟨doc, h₁, h₂, h₃, h₄ { documentType := "SPDX", formatType := "JSON" } (by decide)⟩,
   match pushBlobData_appends_one exampleOCIDeps exampleRef [4]
      "application/octet-stream" [] with
    | ⟨doc, h₁, h₂, h₃, _, h₅⟩ => ⟨doc, h₁, h₂, h₃, h₅ (by decide)⟩⟩

/-- The loop of `collectLayersOfImage` over layers that can all be read. -/
theorem collectLayersLoop_readable (deps : OCIDeps) (ref : Reference) (manifest : Manifest)
    (layers : List Layer) (docChannel : List Document)
    (hread : ∀ layer ∈ layers, layer.compressedBytes ≠ none) :
    collectLayersLoop deps ref manifest layers docChannel =
      (docChannel ++ layers.map (specLayerDocument deps ref manifest), none) := by
  induction layers generalizing docChannel with
  | nil => simp [collectLayersLoop]
  | cons layer rest ih =>
    have hl := hread layer (List.mem_cons_self _ _)
    have hrest : ∀ l ∈ rest, l.compressedBytes ≠ none :=
      fun l hmem => hread l (List.mem_cons_of_mem _ hmem)
    unfold Layer.compressedBytes at hl
    cases hc : layer.Compressed with
    | error e => simp [hc] at hl
    | ok blob =>
      rcases hr : blob.ReadAll with ⟨blobData, err⟩
      cases err with
      | some e => simp [hc, hr] at hl
      | none =>
        rw [collectLayersLoop]
        simp only [hc, hr]
        rw [ih _ hrest, pushBlobData_eq, layerArtifactType_eq]
        simp [specLayerDocument, Layer.compressedBytes, hc, hr]

/-- The loop of `collectLayersOfImage` when a layer cannot be read: the
documents of the layers before it, and a non-nil error. -/
theorem collectLayersLoop_unreadable (deps : OCIDeps) (ref : Reference) (manifest : Manifest)
    (before : List Layer) (layer : Layer) (after : List Layer) (docChannel : List Document)
    (hread : ∀ l ∈ before, l.compressedBytes ≠ none) (hfail : layer.compressedBytes = none) :
    ∃ err, collectLayersLoop deps ref manifest (before ++ layer :: after) docChannel =
      (docChannel ++ before.map (specLayerDocument deps ref manifest), some err) ∧
      (layer.Compressed = .error err ∨
        ∃ blob e, layer.Compressed = .ok blob ∧ blob.ReadAll.2 = some e ∧
          err = .wrap "failed reading blob: " e) := by
  induction before generalizing docChannel with
  | nil =>
    unfold Layer.compressedBytes at hfail
    cases hc : layer.Compressed with
    | error e => exact ⟨e, by simp [collectLayersLoop, hc], Or.inl rfl⟩
    | ok blob =>
      rcases hr : blob.ReadAll with ⟨blobData, err⟩
      cases err with
      | none => simp [hc, hr] at hfail
      | some e =>
        exact ⟨.wrap "failed reading blob: " e, by simp [collectLayersLoop, hc, hr],
          Or.inr ⟨blob, e, rfl, by simp [hr], rfl⟩⟩
  | cons l rest ih =>
    have hl := hread l (List.mem_cons_self _ _)
    have hrest : ∀ x ∈ rest, x.compressedBytes ≠ none :=
      fun x hmem => hread x (List.mem_cons_of_mem _ hmem)
    unfold Layer.compressedBytes at hl
    cases hc : l.Compressed with
    | error e => simp [hc] at hl
    | ok blob =>
      rcases hr : blob.ReadAll with ⟨blobData, err⟩
      cases err with
      | some e => simp [hc, hr] at hl
      | none =>
        obtain ⟨err, herr, hwhich⟩ := ih (pushBlobData deps ref blobData
          (layerArtifactType manifest l) docChannel) hrest
        refine ⟨err, ?_, hwhich⟩
        rw [List.cons_append, collectLayersLoop]
        simp only [hc, hr]
        rw [herr, pushBlobData_eq, layerArtifactType_eq]
        simp [specLayerDocument, Layer.compressedBytes, hc, hr]

/-- C10: for an image whose manifest and layer list can be read and whose
layers can all be read, `collectLayersOfImage` returns nil and sends exactly
one document per layer, in layer order, with that layer's compressed bytes,
classified by the layer's media type when it is available and non-empty,
otherwise by the manifest's config media type when that is non-empty,
otherwise by `unknown`.  When the manifest or the layer list cannot be read,
that error is returned and nothing is sent.  When a layer cannot be read, a
non-nil error is returned after the documents of the layers before it have
been sent, and nothing is sent for that layer or a later one; the error is
the one of `Compressed()`, or the one of `io.ReadAll` wrapped. -/
theorem collectLayersOfImage_spec (deps : OCIDeps) (ref : Reference) (img : Image)
    (docChannel : List Document) :
    (∀ manifest layers, img.Manifest = .ok manifest → img.Layers = .ok layers →
      (∀ layer ∈ layers, layer.compressedBytes ≠ none) →
      collectLayersOfImage deps ref img docChannel =
        (docChannel ++ layers.map (fun layer =>
          specDocument deps ref (layer.compressedBytes.getD [])
            (specArtifactType manifest layer)), none) ∧
      (layers.map (fun layer =>
          specDocument deps ref (layer.compressedBytes.getD [])
            (specArtifactType manifest layer))).length = layers.length) ∧
    (∀ err, img.Manifest = .error err →
      collectLayersOfImage deps ref img docChannel = (docChannel, some err)) ∧
    (∀ manifest err, img.Manifest = .ok manifest → img.Layers = .error err →
      collectLayersOfImage deps ref img docChannel = (docChannel, some err)) ∧
    (∀ manifest before layer after, img.Manifest = .ok manifest →
      img.Layers = .ok (before ++ layer :: after) →
      (∀ l ∈ before, l.compressedBytes ≠ none) → layer.compressedBytes = none →
      ∃ err, collectLayersOfImage deps ref img docChannel =
        (docChannel ++ before.map (fun l =>
          specDocument deps ref (l.compressedBytes.getD [])
            (specArtifactType manifest l)), some err) ∧
        (layer.Compressed = .error err ∨
          ∃ blob e, layer.Compressed = .ok blob ∧ blob.ReadAll.2 = some e ∧
            err = .wrap "failed reading blob: " e)) := by
  refine ⟨?_, ?_, ?_, ?_⟩
  · intro manifest layers hm hl hread
    refine ⟨?_, by simp⟩
    simp only [collectLayersOfImage, hm, hl]
    exact collectLayersLoop_readable deps ref manifest layers docChannel hread
  · intro err hm
    simp [collectLayersOfImage, hm]
  · intro manifest err hm hl
    simp [collectLayersOfImage, hm, hl]
  · intro manifest before layer after hm hl hread hfail
    simp only [collectLayersOfImage, hm, hl]
    exact collectLayersLoop_unreadable deps ref manifest before layer after docChannel hread
      hfail


/-- C10, for an image with two readable layers, for images whose manifest
or layer list cannot be read, and for an image whose second layer cannot be
read. -/
theorem collectLayersOfImage_spec_witness :
    (collectLayersOfImage exampleOCIDeps exampleRef exampleImage [] =
        ([] ++ [spdxLayer, plainLayer].map (fun layer =>
          specDocument exampleOCIDeps exampleRef (layer.compressedBytes.getD [])
            (specArtifactType exampleManifest layer)), none) ∧
      ([spdxLayer, plainLayer].map (fun layer =>
          specDocument exampleOCIDeps exampleRef (layer.compressedBytes.getD [])
            (specArtifactType exampleManifest layer))).length = [spdxLayer, plainLayer].length) ∧
    collectLayersOfImage exampleOCIDeps exampleRef noManifestImage [] =
      ([], some (.base "manifest unknown")) ∧
    collectLayersOfImage exampleOCIDeps exampleRef noLayersImage [] =
      ([], some (.base "layers unknown")) ∧
    (∃ err, collectLayersOfImage exampleOCIDeps exampleRef brokenImage [] =
      ([] ++ [spdxLayer].map (fun l =>
        specDocument exampleOCIDeps exampleRef (l.compressedBytes.getD [])
          (specArtifactType exampleManifest l)), some err) ∧
      (brokenLayer.Compressed = .error err ∨
        ∃ blob e, brokenLayer.Compressed = .ok blob ∧ blob.ReadAll.2 = some e ∧
          err = .wrap "failed reading blob: " e)) :=
  ⟨(collectLayersOfImage_spec exampleOCIDeps exampleRef exampleImage []).1
      exampleManifest [spdxLayer, plainLayer] rfl rfl (by decide),
   (collectLayersOfImage_spec exampleOCIDeps exampleRef noManifestImage []).2.1
      (.base "manifest unknown") rfl,
   (collectLayersOfImage_spec exampleOCIDeps exampleRef noLayersImage []).2.2.1
      exampleManifest (.base "layers unknown") rfl rfl,
   (collectLayersOfImage_spec exampleOCIDeps exampleRef brokenImage []).2.2.2
      exampleManifest [spdxLayer] brokenLayer [plainLayer] rfl rfl (by decide) rfl⟩

/-! ## Theorems: `collect` -/

/-- Every call of `Collect` has at least one move before it: its return. -/
theorem Proc.size_pos (p : Proc) : 0 < p.size := by
  cases p <;> simp [Proc.size]

/-- What one move of a running goroutine does to the state of the pass, by
the kind of the move. -/
theorem step_cases {ρ : Type} (ref : Reference) (remoteOpts : List ρ) (parentDone : Bool)
    (i : Nat) (st : PassState ρ) (hi : i < st.workers.length) :
    ∃ pre w post, st.workers = pre ++ w :: post ∧
      (step ref remoteOpts parentDone i st).closed = st.closed ∧
      match w with
      | .launched n c =>
        (step ref remoteOpts parentDone i st).workers =
          pre ++ .collecting n [] (c.Collect ref remoteOpts) :: post ∧
        (step ref remoteOpts parentDone i st).docChannel = st.docChannel ∧
        (step ref remoteOpts parentDone i st).err = st.err ∧
        (step ref remoteOpts parentDone i st).cancelled = st.cancelled ∧
        (step ref remoteOpts parentDone i st).returned = st.returned
      | .collecting n sent (.send d next) =>
        (step ref remoteOpts parentDone i st).workers =
          pre ++ .collecting n (sent ++ [d]) next :: post ∧
        (step ref remoteOpts parentDone i st).docChannel = st.docChannel ++ [d] ∧
        (step ref remoteOpts parentDone i st).err = st.err ∧
        (step ref remoteOpts parentDone i st).cancelled = st.cancelled ∧
        (step ref remoteOpts parentDone i st).returned = st.returned
      | .collecting n sent (.ctxDone whenDone otherwise) =>
        (step ref remoteOpts parentDone i st).workers =
          pre ++ .collecting n sent
            (if parentDone || st.cancelled then whenDone else otherwise) :: post ∧
        (step ref remoteOpts parentDone i st).docChannel = st.docChannel ∧
        (step ref remoteOpts parentDone i st).err = st.err ∧
        (step ref remoteOpts parentDone i st).cancelled = st.cancelled ∧
        (step ref remoteOpts parentDone i st).returned = st.returned
      | .collecting n sent (.ret e) =>
        (step ref remoteOpts parentDone i st).workers = pre ++ post ∧
        (step ref remoteOpts parentDone i st).docChannel = st.docChannel ∧
        (step ref remoteOpts parentDone i st).err = (st.err <|> e) ∧
        (step ref remoteOpts parentDone i st).cancelled =
          (st.cancelled || (st.err.isNone && e.isSome)) ∧
        (step ref remoteOpts parentDone i st).returned =
          st.returned ++ [{ collectorName := n, sent := sent, err := e }] := by
  have hdrop : st.workers.drop i = st.workers[i] :: st.workers.drop (i + 1) :=
    List.drop_eq_getElem_cons hi
  have hws : st.workers = st.workers.take i ++ st.workers[i] :: st.workers.drop (i + 1) := by
    rw [← hdrop, List.take_append_drop]
  refine ⟨st.workers.take i, st.workers[i], st.workers.drop (i + 1), hws, ?_, ?_⟩
  · unfold step
    rw [hdrop]
    rcases st.workers[i] with ⟨n, c⟩ | ⟨n, sent, p⟩
    · rfl
    · rcases p with ⟨d, next⟩ | ⟨a, b⟩ | e
      · rfl
      · rfl
      · rcases e with _ | e <;> rcases h : st.err with _ | x <;> simp [h]
  · unfold step
    rw [hdrop]
    rcases st.workers[i] with ⟨n, c⟩ | ⟨n, sent, p⟩
    · simp
    · rcases p with ⟨d, next⟩ | ⟨a, b⟩ | e
      · simp
      · simp
      · rcases e with _ | e <;> rcases h : st.err with _ | x <;> simp [h]

/-- A list of goroutines with no move before it is empty. -/
theorem workersSize_eq_zero {ρ : Type} (ref : Reference) (remoteOpts : List ρ)
    (ws : List (Worker ρ)) (h : workersSize ref remoteOpts ws = 0) : ws = [] := by
  cases ws with
  | nil => rfl
  | cons w rest =>
    exfalso
    have hw : 0 < Worker.size ref remoteOpts w := by
      cases w with
      | launched n c => simp [Worker.size]
      | collecting n sent p => simpa [Worker.size] using p.size_pos
    simp only [workersSize, List.map_cons, List.sum_cons] at h
    omega

/-- Every move of a running goroutine brings the pass closer to its end. -/
theorem step_size_lt {ρ : Type} (ref : Reference) (remoteOpts : List ρ) (parentDone : Bool)
    (i : Nat) (st : PassState ρ) (hi : i < st.workers.length) :
    workersSize ref remoteOpts (step ref remoteOpts parentDone i st).workers <
      workersSize ref remoteOpts st.workers := by
  obtain ⟨pre, w, post, hws, -, h⟩ := step_cases ref remoteOpts parentDone i st hi
  rw [hws]
  rcases w with ⟨n, c⟩ | ⟨n, sent, p⟩
  · rw [h.1]; simp [workersSize, Worker.size]
  · rcases p with ⟨d, next⟩ | ⟨a, b⟩ | e
    · rw [h.1]; simp [workersSize, Worker.size, Proc.size]
    · rw [h.1]
      by_cases hc : (parentDone || st.cancelled) = true
      · simp only [hc, if_true]; simp [workersSize, Worker.size, Proc.size]; omega
      · simp only [hc]; simp [workersSize, Worker.size, Proc.size]; omega
    · rw [h.1]; simp [workersSize, Worker.size, Proc.size]

/-- With a bound of at least the moves the goroutines have before them, the
pass ends with no goroutine running: every goroutine returns. -/
theorem run_workers_nil {ρ : Type} (ref : Reference) (remoteOpts : List ρ) (sched : Nat → Nat)
    (cancelAt : Option Nat) (fuel t : Nat) (st : PassState ρ)
    (h : workersSize ref remoteOpts st.workers ≤ fuel) :
    (run ref remoteOpts sched cancelAt fuel t st).workers = [] := by
  induction fuel generalizing t st with
  | zero =>
    simp only [run]
    exact workersSize_eq_zero ref remoteOpts _ (Nat.le_zero.mp h)
  | succ fuel ih =>
    rw [run]
    split
    · assumption
    · rename_i w ws hws
      apply ih
      have hlen : 0 < st.workers.length := by rw [hws]; simp
      have := step_size_lt ref remoteOpts (parentDoneAt cancelAt t)
        (sched t % st.workers.length) st (Nat.mod_lt _ hlen)
      omega

/-- A property of the state that every move of a running goroutine keeps
holds throughout the pass. -/
theorem run_invariant {ρ : Type} (ref : Reference) (remoteOpts : List ρ) (sched : Nat → Nat)
    (cancelAt : Option Nat) (P : PassState ρ → Prop)
    (hstep : ∀ (t i : Nat) (st : PassState ρ), P st → i < st.workers.length →
      P (step ref remoteOpts (parentDoneAt cancelAt t) i st))
    (fuel t : Nat) (st : PassState ρ) (h : P st) :
    P (run ref remoteOpts sched cancelAt fuel t st) := by
  induction fuel generalizing t st with
  | zero => simpa [run] using h
  | succ fuel ih =>
    rw [run]
    split
    · exact h
    · rename_i w ws hws
      apply ih
      have hlen : 0 < st.workers.length := by rw [hws]; simp
      exact hstep t _ st h (Nat.mod_lt _ hlen)

/-- A property of the time and the state that every move made before time
`T` keeps holds at the end of a pass that cannot last beyond `T`. -/
theorem run_invariant_timed {ρ : Type} (ref : Reference) (remoteOpts : List ρ)
    (sched : Nat → Nat) (cancelAt : Option Nat) (P : Nat → PassState ρ → Prop) (T : Nat)
    (hstep : ∀ (t i : Nat) (st : PassState ρ), t < T → P t st → i < st.workers.length →
      P (t + 1) (step ref remoteOpts (parentDoneAt cancelAt t) i st))
    (fuel t : Nat) (st : PassState ρ) (hT : t + fuel ≤ T) (h : P t st) :
    ∃ t', t' ≤ t + fuel ∧ P t' (run ref remoteOpts sched cancelAt fuel t st) := by
  induction fuel generalizing t st with
  | zero => exact ⟨t, le_refl _, by simpa [run] using h⟩
  | succ fuel ih =>
    rw [run]
    split
    · exact ⟨t, by omega, h⟩
    · rename_i w ws hws
      have hlen : 0 < st.workers.length := by rw [hws]; simp
      obtain ⟨t', ht', hP⟩ := ih (t + 1) _ (by omega)
        (hstep t _ st (by omega) h (Nat.mod_lt _ hlen))
      exact ⟨t', by omega, hP⟩

/-- Answers that are all `not done` give what the call does when its context
is never done. -/
theorem Proc.follow_not_done (p : Proc) (obs : List Bool) (h : true ∉ obs) :
    p.follow obs = p.live := by
  induction p generalizing obs with
  | send d next ih => simp [Proc.follow, Proc.live, ih obs h]
  | ctxDone whenDone otherwise _ ih =>
    cases obs with
    | nil => simpa [Proc.follow, Proc.live] using ih [] (by simp)
    | cons b rest =>
      cases b with
      | true => simp at h
      | false =>
        simpa [Proc.follow, Proc.live] using ih rest (fun hmem => h (List.mem_cons_of_mem _ hmem))
  | ret err => rcases obs with _ | ⟨_ | _, rest⟩ <;> simp [Proc.follow, Proc.live]

/-- A look at the context takes the branch of the answer. -/
theorem Proc.follow_ctxDone (b : Bool) (obs : List Bool) (whenDone otherwise : Proc) :
    (Proc.ctxDone whenDone otherwise).follow (b :: obs) =
      (if b = true then whenDone else otherwise).follow obs := by
  cases b <;> simp [Proc.follow]

/-- A pairing of a list with `pre ++ w :: post` splits at `w`. -/
theorem forall₂_split {α β : Type} (R : α → β → Prop) (l : List α) (pre : List β) (w : β)
    (post : List β) (h : List.Forall₂ R l (pre ++ w :: post)) :
    ∃ lpre c lpost, l = lpre ++ c :: lpost ∧ List.Forall₂ R lpre pre ∧ R c w ∧
      List.Forall₂ R lpost post := by
  induction pre generalizing l with
  | nil =>
    rw [List.nil_append, List.forall₂_cons_right_iff] at h
    obtain ⟨c, lpost, hc, hpost, rfl⟩ := h
    exact ⟨[], c, lpost, rfl, List.Forall₂.nil, hc, hpost⟩
  | cons x pre ih =>
    rw [List.cons_append, List.forall₂_cons_right_iff] at h
    obtain ⟨a, l', ha, hl', rfl⟩ := h
    obtain ⟨lpre, c, lpost, rfl, hpre, hc, hpost⟩ := ih l' hl'
    exact ⟨a :: lpre, c, lpost, rfl, List.Forall₂.cons ha hpre, hc, hpost⟩

/-- A running goroutine that is the call of a collector stays so when more
may have been done. -/
theorem worker_isCallOf_mono {ρ : Type} (ref : Reference) (remoteOpts : List ρ)
    (J J' : Prop) (hJ : J → J') (c : String × Collector ρ) (w : Worker ρ)
    (h : Worker.isCallOf ref remoteOpts J c w) : Worker.isCallOf ref remoteOpts J' c w := by
  cases w with
  | launched n col => exact h
  | collecting n sent p =>
    obtain ⟨hn, obs, hobs, hfollow⟩ := h
    exact ⟨hn, obs, fun hmem => hJ (hobs hmem), hfollow⟩

/-- A returned goroutine that is the call of a collector stays so when more
may have been done. -/
theorem returned_isCallOf_mono {ρ : Type} (ref : Reference) (remoteOpts : List ρ)
    (J J' : Prop) (hJ : J → J') (c : String × Collector ρ) (r : Returned)
    (h : Returned.isCallOf ref remoteOpts J c r) : Returned.isCallOf ref remoteOpts J' c r := by
  obtain ⟨hn, obs, hfollow, hobs⟩ := h
  exact ⟨hn, obs, hfollow, fun hmem => hJ (hobs hmem)⟩

/-- One move at time `t` keeps the account of the calls: the group has
cancelled only when it has stored an error, and the goroutines, running and
returned, are the calls of `Collect` of the registered collectors, each
collector once, with no answer `done` unless the context can have been
done. -/
theorem step_calls {ρ : Type} (ref : Reference) (remoteOpts : List ρ) (cancelAt : Option Nat)
    (collectors : List (String × Collector ρ)) (t i : Nat) (st : PassState ρ)
    (h : (st.cancelled = true → st.err ≠ none) ∧
      ∃ running returned, List.Perm (running ++ returned) collectors ∧
        List.Forall₂ (Worker.isCallOf ref remoteOpts (doneBy cancelAt t st.err)) running
          st.workers ∧
        List.Forall₂ (Returned.isCallOf ref remoteOpts (doneBy cancelAt t st.err)) returned
          st.returned)
    (hi : i < st.workers.length) :
    ((step ref remoteOpts (parentDoneAt cancelAt t) i st).cancelled = true →
      (step ref remoteOpts (parentDoneAt cancelAt t) i st).err ≠ none) ∧
    ∃ running returned, List.Perm (running ++ returned) collectors ∧
      List.Forall₂ (Worker.isCallOf ref remoteOpts
        (doneBy cancelAt (t + 1) (step ref remoteOpts (parentDoneAt cancelAt t) i st).err))
        running (step ref remoteOpts (parentDoneAt cancelAt t) i st).workers ∧
      List.Forall₂ (Returned.isCallOf ref remoteOpts
        (doneBy cancelAt (t + 1) (step ref remoteOpts (parentDoneAt cancelAt t) i st).err))
        returned (step ref remoteOpts (parentDoneAt cancelAt t) i st).returned := by
  obtain ⟨hcan, running, returned, hperm, hrun, hret⟩ := h
  obtain ⟨pre, w, post, hws, -, hstep⟩ :=
    step_cases ref remoteOpts (parentDoneAt cancelAt t) i st hi
  rw [hws] at hrun
  obtain ⟨cpre, c, cpost, rfl, hpre, hw, hpost⟩ := forall₂_split _ _ _ _ _ hrun
  have hmono : ∀ err' : Option GoError, (st.err ≠ none → err' ≠ none) →
      doneBy cancelAt t st.err → doneBy cancelAt (t + 1) err' := by
    intro err' herr' hd
    rcases hd with ⟨c, hc, hlt⟩ | hd
    · exact Or.inl ⟨c, hc, by omega⟩
    · exact Or.inr (herr' hd)
  rcases w with ⟨n, col⟩ | ⟨n, sent, p⟩
  · obtain ⟨hwk, -, he, hc, hr⟩ := hstep
    rw [hwk, he, hc, hr]
    refine ⟨hcan, cpre ++ c :: cpost, returned, hperm, ?_, ?_⟩
    · refine List.rel_append (hpre.imp fun a b hab =>
        worker_isCallOf_mono ref remoteOpts _ _ (hmono _ id) a b hab) (List.Forall₂.cons ?_
          (hpost.imp fun a b hab => worker_isCallOf_mono ref remoteOpts _ _ (hmono _ id) a b hab))
      obtain ⟨hn, hcol⟩ := hw
      exact ⟨hn, [], by simp, fun rest => by simp [hcol]⟩
    · exact hret.imp fun a b hab => returned_isCallOf_mono ref remoteOpts _ _ (hmono _ id) a b hab
  · rcases p with ⟨d, next⟩ | ⟨a, b⟩ | e
    · obtain ⟨hwk, -, he, hc, hr⟩ := hstep
      rw [hwk, he, hc, hr]
      refine ⟨hcan, cpre ++ c :: cpost, returned, hperm, ?_, ?_⟩
      · refine List.rel_append (hpre.imp fun a b hab =>
          worker_isCallOf_mono ref remoteOpts _ _ (hmono _ id) a b hab) (List.Forall₂.cons ?_
            (hpost.imp fun a b hab =>
              worker_isCallOf_mono ref remoteOpts _ _ (hmono _ id) a b hab))
        obtain ⟨hn, obs, hobs, hfollow⟩ := hw
        refine ⟨hn, obs, fun hmem => hmono _ id (hobs hmem), fun rest => ?_⟩
        rw [hfollow rest]
        simp [Proc.follow]
      · exact hret.imp fun a b hab =>
          returned_isCallOf_mono ref remoteOpts _ _ (hmono _ id) a b hab
    · obtain ⟨hwk, -, he, hc, hr⟩ := hstep
      rw [hwk, he, hc, hr]
      refine ⟨hcan, cpre ++ c :: cpost, returned, hperm, ?_, ?_⟩
      · refine List.rel_append (hpre.imp fun a b hab =>
          worker_isCallOf_mono ref remoteOpts _ _ (hmono _ id) a b hab) (List.Forall₂.cons ?_
            (hpost.imp fun a b hab =>
              worker_isCallOf_mono ref remoteOpts _ _ (hmono _ id) a b hab))
        obtain ⟨hn, obs, hobs, hfollow⟩ := hw
        refine ⟨hn, obs ++ [parentDoneAt cancelAt t || st.cancelled], ?_, fun rest => ?_⟩
        · intro hmem
          rcases List.mem_append.mp hmem with hmem | hmem
          · exact hmono _ id (hobs hmem)
          · have hflag : (parentDoneAt cancelAt t || st.cancelled) = true :=
              (List.mem_singleton.mp hmem).symm
            rcases Bool.or_eq_true_iff.mp hflag with hp | hcn
            · left
              cases hca : cancelAt with
              | none => simp [parentDoneAt, hca] at hp
              | some c' =>
                simp only [parentDoneAt, hca, decide_eq_true_eq] at hp
                exact ⟨c', rfl, by omega⟩
            · exact Or.inr (hcan hcn)
        · rw [List.append_assoc, List.singleton_append, hfollow, Proc.follow_ctxDone]
      · exact hret.imp fun a b hab =>
          returned_isCallOf_mono ref remoteOpts _ _ (hmono _ id) a b hab
    · obtain ⟨hwk, -, he, hc, hr⟩ := hstep
      rw [hwk, he, hc, hr]
      have herr' : st.err ≠ none → (st.err <|> e) ≠ none := by
        intro hne
        cases hst : st.err with
        | none => exact absurd hst hne
        | some x => simp
      refine ⟨?_, cpre ++ cpost, returned ++ [c], ?_, ?_, ?_⟩
      · intro hcn
        cases hst : st.err with
        | some x => simp
        | none =>
          cases e with
          | some x => simp
          | none =>
            rw [hst] at hcn
            simp only [Option.isNone_none, Option.isSome_none, Bool.and_false,
              Bool.or_false] at hcn
            exact absurd hst (hcan hcn)
      · refine List.Perm.trans ?_ hperm
        simp only [List.append_assoc]
        refine List.Perm.append_left _ ?_
        rw [← List.append_assoc]
        exact List.perm_append_singleton _ _
      · exact List.rel_append (hpre.imp fun a b hab =>
          worker_isCallOf_mono ref remoteOpts _ _ (hmono _ herr') a b hab)
            (hpost.imp fun a b hab =>
              worker_isCallOf_mono ref remoteOpts _ _ (hmono _ herr') a b hab)
      · refine List.rel_append (hret.imp fun a b hab =>
          returned_isCallOf_mono ref remoteOpts _ _ (hmono _ herr') a b hab)
            (List.Forall₂.cons ?_ List.Forall₂.nil)
        obtain ⟨hn, obs, hobs, hfollow⟩ := hw
        refine ⟨hn, obs, ?_, fun hmem => hmono _ herr' (hobs hmem)⟩
        have := hfollow []
        simpa [Proc.follow] using this

/-- One move keeps the account of the `errgroup.Group`: `g.err` is the first
non-nil error among the returns so far, and the goroutines running or
returned are the ones that were started. -/
theorem step_group {ρ : Type} (ref : Reference) (remoteOpts : List ρ) (parentDone : Bool)
    (names : List String) (i : Nat) (st : PassState ρ)
    (h : st.err = (st.returned.filterMap Returned.err).head? ∧
      List.Perm (st.workers.map Worker.name ++ st.returned.map Returned.collectorName) names)
    (hi : i < st.workers.length) :
    (step ref remoteOpts parentDone i st).err =
      ((step ref remoteOpts parentDone i st).returned.filterMap Returned.err).head? ∧
    List.Perm ((step ref remoteOpts parentDone i st).workers.map Worker.name ++
      (step ref remoteOpts parentDone i st).returned.map Returned.collectorName) names := by
  obtain ⟨herr, hperm⟩ := h
  obtain ⟨pre, w, post, hws, -, hstep⟩ := step_cases ref remoteOpts parentDone i st hi
  rw [hws] at hperm
  rcases w with ⟨n, c⟩ | ⟨n, sent, p⟩
  · obtain ⟨hw, -, he, -, hr⟩ := hstep
    rw [hw, he, hr]
    exact ⟨herr, by simpa [Worker.name] using hperm⟩
  · rcases p with ⟨d, next⟩ | ⟨a, b⟩ | e
    · obtain ⟨hw, -, he, -, hr⟩ := hstep
      rw [hw, he, hr]
      exact ⟨herr, by simpa [Worker.name] using hperm⟩
    · obtain ⟨hw, -, he, -, hr⟩ := hstep
      rw [hw, he, hr]
      exact ⟨herr, by simpa [Worker.name] using hperm⟩
    · obtain ⟨hw, -, he, -, hr⟩ := hstep
      rw [hw, he, hr]
      constructor
      · rw [herr, List.filterMap_append]
        cases hfm : st.returned.filterMap Returned.err with
        | nil => cases e <;> simp
        | cons x xs => simp
      · refine List.Perm.trans ?_ hperm
        simp only [List.map_append, List.map_cons, List.map_nil, Worker.name,
          List.append_assoc]
        refine List.Perm.append_left _ ?_
        rw [← List.append_assoc]
        exact List.perm_append_singleton _ _

/-- The account of the `errgroup.Group` at the end of the pass: no goroutine
is running, `g.err` is the first non-nil error among the returns, and the
goroutines that returned are the ones that were started. -/
theorem run_group {ρ : Type} (collectors : List (String × Collector ρ))
    (sched : Nat → Nat) (cancelAt : Option Nat) (ref : Reference)
    (docChannel : List Document) (closed : Bool) (remoteOpts : List ρ) :
    (run ref remoteOpts sched cancelAt
      (workersSize ref remoteOpts (launch collectors docChannel closed).workers) 0
      (launch collectors docChannel closed)).workers = [] ∧
    (run ref remoteOpts sched cancelAt
      (workersSize ref remoteOpts (launch collectors docChannel closed).workers) 0
      (launch collectors docChannel closed)).err =
      ((run ref remoteOpts sched cancelAt
        (workersSize ref remoteOpts (launch collectors docChannel closed).workers) 0
        (launch collectors docChannel closed)).returned.filterMap Returned.err).head? ∧
    List.Perm
      ((run ref remoteOpts sched cancelAt
        (workersSize ref remoteOpts (launch collectors docChannel closed).workers) 0
        (launch collectors docChannel closed)).returned.map Returned.collectorName)
      (collectors.map Prod.fst) := by
  have hnil := run_workers_nil ref remoteOpts sched cancelAt
    (workersSize ref remoteOpts (launch collectors docChannel closed).workers) 0
    (launch collectors docChannel closed) (le_refl _)
  have hinv := run_invariant ref remoteOpts sched cancelAt
    (fun st => st.err = (st.returned.filterMap Returned.err).head? ∧
      List.Perm (st.workers.map Worker.name ++ st.returned.map Returned.collectorName)
        (collectors.map Prod.fst))
    (fun t i st h hi => step_group ref remoteOpts _ _ i st h hi)
    (workersSize ref remoteOpts (launch collectors docChannel closed).workers) 0
    (launch collectors docChannel closed)
    (by simp [launch, Function.comp_def, Worker.name])
  obtain ⟨herr, hperm⟩ := hinv
  rw [hnil] at hperm
  exact ⟨hnil, herr, by simpa using hperm⟩

/-- One move keeps the account of the channel: it is not closed, and what has
been added to it is, as a multiset, what the goroutines have sent, those that
returned and those still running. -/
theorem step_sent {ρ : Type} (ref : Reference) (remoteOpts : List ρ) (parentDone : Bool)
    (docChannel : List Document) (closed : Bool) (i : Nat) (st : PassState ρ)
    (h : st.closed = closed ∧ ∃ sent, st.docChannel = docChannel ++ sent ∧
      (sent : Multiset Document) =
        (st.returned.map (fun r => (r.sent : Multiset Document))).sum +
        (st.workers.map (fun w => (w.sent : Multiset Document))).sum)
    (hi : i < st.workers.length) :
    (step ref remoteOpts parentDone i st).closed = closed ∧
    ∃ sent, (step ref remoteOpts parentDone i st).docChannel = docChannel ++ sent ∧
      (sent : Multiset Document) =
        ((step ref remoteOpts parentDone i st).returned.map
          (fun r => (r.sent : Multiset Document))).sum +
        ((step ref remoteOpts parentDone i st).workers.map
          (fun w => (w.sent : Multiset Document))).sum := by
  obtain ⟨hclosed, S, hch, hS⟩ := h
  obtain ⟨pre, w, post, hws, hc, hstep⟩ := step_cases ref remoteOpts parentDone i st hi
  rw [hws] at hS
  refine ⟨hc.trans hclosed, ?_⟩
  rcases w with ⟨n, c⟩ | ⟨n, sent, p⟩
  · obtain ⟨hw, hd, -, -, hr⟩ := hstep
    rw [hw, hd, hr]
    exact ⟨S, hch, by simpa [Worker.sent] using hS⟩
  · rcases p with ⟨d, next⟩ | ⟨a, b⟩ | e
    · obtain ⟨hw, hd, -, -, hr⟩ := hstep
      rw [hw, hd, hr]
      refine ⟨S ++ [d], by rw [hch, List.append_assoc], ?_⟩
      rw [← Multiset.coe_add, hS]
      simp only [List.map_append, List.map_cons, List.sum_append, List.sum_cons, Worker.sent,
        ← Multiset.coe_add]
      abel
    · obtain ⟨hw, hd, -, -, hr⟩ := hstep
      rw [hw, hd, hr]
      exact ⟨S, hch, by simpa [Worker.sent] using hS⟩
    · obtain ⟨hw, hd, -, -, hr⟩ := hstep
      rw [hw, hd, hr]
      refine ⟨S, hch, ?_⟩
      rw [hS]
      simp only [List.map_append, List.map_cons, List.map_nil, List.sum_append, List.sum_cons,
        List.sum_nil, Worker.sent]
      abel

/-- One move, while the context is not done and every call of `Collect`
returns nil when the context is never done, keeps this account: no error is
stored, the group has not cancelled, and what has been added to the channel
together with what the goroutines still have to send is the given multiset. -/
theorem step_live {ρ : Type} (ref : Reference) (remoteOpts : List ρ)
    (docChannel : List Document) (target : Multiset Document) (i : Nat) (st : PassState ρ)
    (h : st.err = none ∧ st.cancelled = false ∧
      (∀ w ∈ st.workers, Worker.liveErr ref remoteOpts w = none) ∧
      (∀ r ∈ st.returned, r.err = none) ∧
      ∃ sent, st.docChannel = docChannel ++ sent ∧
        (sent : Multiset Document) +
          (st.workers.map (fun w => (Worker.liveDocs ref remoteOpts w : Multiset Document))).sum
          = target)
    (hi : i < st.workers.length) :
    (step ref remoteOpts false i st).err = none ∧
    (step ref remoteOpts false i st).cancelled = false ∧
    (∀ w ∈ (step ref remoteOpts false i st).workers, Worker.liveErr ref remoteOpts w = none) ∧
    (∀ r ∈ (step ref remoteOpts false i st).returned, r.err = none) ∧
    ∃ sent, (step ref remoteOpts false i st).docChannel = docChannel ++ sent ∧
      (sent : Multiset Document) +
        ((step ref remoteOpts false i st).workers.map
          (fun w => (Worker.liveDocs ref remoteOpts w : Multiset Document))).sum = target := by
  obtain ⟨herr, hcan, hlive, hret, S, hch, hS⟩ := h
  obtain ⟨pre, w, post, hws, -, hstep⟩ := step_cases ref remoteOpts false i st hi
  rw [hws] at hS hlive
  have hpre : ∀ x ∈ pre, Worker.liveErr ref remoteOpts x = none :=
    fun x hx => hlive x (List.mem_append_left _ hx)
  have hpost : ∀ x ∈ post, Worker.liveErr ref remoteOpts x = none :=
    fun x hx => hlive x (List.mem_append_right _ (List.mem_cons_of_mem _ hx))
  have hw := hlive w (List.mem_append_right _ (List.mem_cons_self _ _))
  rcases w with ⟨n, c⟩ | ⟨n, sent, p⟩
  · obtain ⟨hwk, hd, he, hc, hr⟩ := hstep
    rw [hwk, hd, he, hc, hr]
    refine ⟨herr, hcan, ?_, hret, S, hch, by simpa [Worker.liveDocs] using hS⟩
    intro x hx
    rcases List.mem_append.mp hx with hx | hx
    · exact hpre x hx
    · rcases List.mem_cons.mp hx with hx | hx
      · rw [hx]; exact hw
      · exact hpost x hx
  · rcases p with ⟨d, next⟩ | ⟨a, b⟩ | e
    · obtain ⟨hwk, hd, he, hc, hr⟩ := hstep
      rw [hwk, hd, he, hc, hr]
      refine ⟨herr, hcan, ?_, hret, S ++ [d], by rw [hch, List.append_assoc], ?_⟩
      · intro x hx
        rcases List.mem_append.mp hx with hx | hx
        · exact hpre x hx
        · rcases List.mem_cons.mp hx with hx | hx
          · rw [hx]; exact hw
          · exact hpost x hx
      · rw [← hS]
        simp only [List.map_append, List.map_cons, List.sum_append, List.sum_cons,
          Worker.liveDocs, Proc.live, ← Multiset.coe_add, ← Multiset.singleton_add,
          ← Multiset.cons_coe, Multiset.coe_nil, add_zero]
        abel
    · obtain ⟨hwk, hd, he, hc, hr⟩ := hstep
      have hif : (if (false || st.cancelled) = true then a else b) = b := by simp [hcan]
      rw [hif] at hwk
      rw [hwk, hd, he, hc, hr]
      refine ⟨herr, hcan, ?_, hret, S, hch, by simpa [Worker.liveDocs, Proc.live] using hS⟩
      intro x hx
      rcases List.mem_append.mp hx with hx | hx
      · exact hpre x hx
      · rcases List.mem_cons.mp hx with hx | hx
        · rw [hx]; exact hw
        · exact hpost x hx
    · obtain ⟨hwk, hd, he, hc, hr⟩ := hstep
      have hnone : e = none := by simpa [Worker.liveErr, Proc.live] using hw
      rw [hwk, hd, he, hc, hr, herr, hcan, hnone]
      refine ⟨rfl, rfl, ?_, ?_, S, hch, by simpa [Worker.liveDocs, Proc.live] using hS⟩
      · intro x hx
        rcases List.mem_append.mp hx with hx | hx
        · exact hpre x hx
        · exact hpost x hx
      · intro r hr'
        rcases List.mem_append.mp hr' with hr' | hr'
        · exact hret r hr'
        · rw [List.mem_singleton.mp hr']

/-- The account of the calls at the end of the pass: the goroutines that
returned are the calls of `Collect` of the registered collectors, each
collector once, and none of them was told that its context was done unless
the caller cancelled within the pass or the group stored an error. -/
theorem run_calls {ρ : Type} (collectors : List (String × Collector ρ))
    (sched : Nat → Nat) (cancelAt : Option Nat) (ref : Reference)
    (docChannel : List Document) (closed : Bool) (remoteOpts : List ρ) :
    ∃ cs, List.Perm cs collectors ∧
      List.Forall₂
        (Returned.isCallOf ref remoteOpts
          (doneBy cancelAt (workersSize ref remoteOpts (launch collectors docChannel closed).workers)
            (run ref remoteOpts sched cancelAt
              (workersSize ref remoteOpts (launch collectors docChannel closed).workers) 0
              (launch collectors docChannel closed)).err))
        cs
        (run ref remoteOpts sched cancelAt
          (workersSize ref remoteOpts (launch collectors docChannel closed).workers) 0
          (launch collectors docChannel closed)).returned := by
  have hnil := run_workers_nil ref remoteOpts sched cancelAt
    (workersSize ref remoteOpts (launch collectors docChannel closed).workers) 0
    (launch collectors docChannel closed) (le_refl _)
  have hstart : List.Forall₂
      (Worker.isCallOf ref remoteOpts (doneBy cancelAt 0 (launch collectors docChannel closed).err))
      collectors (launch collectors docChannel closed).workers := by
    clear hnil
    simp only [launch]
    induction collectors with
    | nil => exact List.Forall₂.nil
    | cons c rest ih => exact List.Forall₂.cons ⟨rfl, rfl⟩ ih
  obtain ⟨t', ht', -, running, returned, hperm, hrun, hret⟩ :=
    run_invariant_timed ref remoteOpts sched cancelAt
      (fun t st => (st.cancelled = true → st.err ≠ none) ∧
        ∃ running returned, List.Perm (running ++ returned) collectors ∧
          List.Forall₂ (Worker.isCallOf ref remoteOpts (doneBy cancelAt t st.err)) running
            st.workers ∧
          List.Forall₂ (Returned.isCallOf ref remoteOpts (doneBy cancelAt t st.err)) returned
            st.returned)
      (0 + workersSize ref remoteOpts (launch collectors docChannel closed).workers)
      (fun t i st _ h hi => step_calls ref remoteOpts cancelAt collectors t i st h hi)
      (workersSize ref remoteOpts (launch collectors docChannel closed).workers) 0
      (launch collectors docChannel closed) (le_refl _)
      ⟨by simp [launch], collectors, [], by simp, hstart, by simp [launch]⟩
  rw [hnil, List.forall₂_nil_right_iff] at hrun
  subst hrun
  refine ⟨returned, by simpa using hperm, hret.imp fun a b hab =>
    returned_isCallOf_mono ref remoteOpts _ _ ?_ a b hab⟩
  rintro (⟨c, hc, hlt⟩ | hne)
  · exact Or.inl ⟨c, hc, by omega⟩
  · exact Or.inr hne

/-- C5: for every order of the map and every schedule of the goroutines,
when every call of `Collect` returns nil, `collect` returns nil; the channel
then holds what it held, followed by documents that are, as a multiset,
exactly the union of the documents the calls of `Collect` sent, each as it
was sent; `collect` does not close the channel; and every registered
collector has run and returned.  The first part is for every moment at which
the caller may cancel: the goroutines that returned are the calls of
`Collect` of the registered collectors, each collector once, each with the
documents and the error that `Collect` gives for the answers it got when it
looked at its context, no answer being `done` unless the caller had
cancelled.  The second part is for a pass that the caller does not cancel
before it can end: the documents are then those every collector sends when
its context is never done.  With no registered collector `collect` returns
nil and the channel is as it was. -/
theorem collect_union_of_documents {ρ : Type} (collectors : List (String × Collector ρ))
    (sched : Nat → Nat) (ref : Reference) (docChannel : List Document) (closed : Bool)
    (remoteOpts : List ρ) :
    (∀ (cancelAt : Option Nat) (st : PassState ρ) (err : Option GoError),
      collect collectors sched cancelAt ref docChannel closed remoteOpts = some (st, err) →
      (∀ r ∈ st.returned, r.err = none) →
      err = none ∧ st.closed = closed ∧ st.workers = [] ∧
      List.Perm (st.returned.map Returned.collectorName) (collectors.map Prod.fst) ∧
      (∃ cs, List.Perm cs collectors ∧
        List.Forall₂
          (Returned.isCallOf ref remoteOpts
            (∃ c, cancelAt = some c ∧
              c < workersSize ref remoteOpts (launch collectors docChannel closed).workers))
          cs st.returned) ∧
      ∃ sent, st.docChannel = docChannel ++ sent ∧
        (sent : Multiset Document) =
          (st.returned.map (fun r => (r.sent : Multiset Document))).sum) ∧
    (∀ cancelAt : Option Nat,
      (∀ c, cancelAt = some c →
        workersSize ref remoteOpts (launch collectors docChannel closed).workers ≤ c) →
      (∀ c ∈ collectors, (c.2.Collect ref remoteOpts).live.2 = none) →
      ∃ (st : PassState ρ) (sent : List Document),
        collect collectors sched cancelAt ref docChannel closed remoteOpts = some (st, none) ∧
        st.closed = closed ∧ st.workers = [] ∧
        (∀ r ∈ st.returned, r.err = none) ∧
        st.docChannel = docChannel ++ sent ∧
        (sent : Multiset Document) =
          (collectors.map
            (fun c => ((c.2.Collect ref remoteOpts).live.1 : Multiset Document))).sum) ∧
    (collectors = [] →
      ∀ cancelAt : Option Nat, ∃ st : PassState ρ,
        collect collectors sched cancelAt ref docChannel closed remoteOpts = some (st, none) ∧
        st.docChannel = docChannel ∧ st.closed = closed) := by
  refine ⟨?_, ?_, ?_⟩
  · intro cancelAt st err hcollect hall
    obtain ⟨hnil, herr, hperm⟩ :=
      run_group collectors sched cancelAt ref docChannel closed remoteOpts
    obtain ⟨cs, hcs, hcalls⟩ :=
      run_calls collectors sched cancelAt ref docChannel closed remoteOpts
    have hinv := run_invariant ref remoteOpts sched cancelAt
      (fun st => st.closed = closed ∧ ∃ sent, st.docChannel = docChannel ++ sent ∧
        (sent : Multiset Document) =
          (st.returned.map (fun r => (r.sent : Multiset Document))).sum +
          (st.workers.map (fun w => (w.sent : Multiset Document))).sum)
      (fun t i st h hi => step_sent ref remoteOpts _ docChannel closed i st h hi)
      (workersSize ref remoteOpts (launch collectors docChannel closed).workers) 0
      (launch collectors docChannel closed)
      ⟨rfl, [], by simp [launch], by simp [launch, Function.comp_def, Worker.sent]⟩
    simp only [collect] at hcollect
    generalize run ref remoteOpts sched cancelAt
      (workersSize ref remoteOpts (launch collectors docChannel closed).workers) 0
      (launch collectors docChannel closed) = fin at hnil herr hperm hinv hcollect hcalls
    rw [hnil] at hcollect
    obtain ⟨hst, herr'⟩ : _ ∧ _ := by simpa using hcollect
    obtain ⟨hclosed, sent, hch, hsent⟩ := hinv
    rw [hnil] at hsent
    have hret : st.returned = fin.returned := by rw [← hst]
    rw [hret] at hall ⊢
    have hfin : fin.err = none := by
      rw [herr, List.head?_eq_none_iff, List.filterMap_eq_nil_iff]
      exact hall
    refine ⟨by rw [← herr', hfin], ?_, ?_, hperm, ⟨cs, hcs, ?_⟩, sent, ?_, by simpa using hsent⟩
    · rw [← hst]; exact hclosed
    · rw [← hst]
    · refine hcalls.imp fun a b hab => returned_isCallOf_mono ref remoteOpts _ _ ?_ a b hab
      rintro (h | h)
      · exact h
      · exact absurd hfin h
    · rw [← hst]; exact hch
  · intro cancelAt hquiet hlive
    have hpd : ∀ t, t < 0 + workersSize ref remoteOpts
        (launch collectors docChannel closed).workers → parentDoneAt cancelAt t = false := by
      intro t ht
      cases hca : cancelAt with
      | none => rfl
      | some c =>
        have := hquiet c hca
        simp only [parentDoneAt, decide_eq_false_iff_not]
        omega
    obtain ⟨-, -, hinv⟩ := run_invariant_timed ref remoteOpts sched cancelAt
      (fun _ st => st.err = none ∧ st.cancelled = false ∧
        (∀ w ∈ st.workers, Worker.liveErr ref remoteOpts w = none) ∧
        (∀ r ∈ st.returned, r.err = none) ∧
        ∃ sent, st.docChannel = docChannel ++ sent ∧
          (sent : Multiset Document) +
            (st.workers.map
              (fun w => (Worker.liveDocs ref remoteOpts w : Multiset Document))).sum =
          (collectors.map
            (fun c => ((c.2.Collect ref remoteOpts).live.1 : Multiset Document))).sum)
      (0 + workersSize ref remoteOpts (launch collectors docChannel closed).workers)
      (fun t i st ht h hi => by
        rw [hpd t ht]
        exact step_live ref remoteOpts docChannel _ i st h hi)
      (workersSize ref remoteOpts (launch collectors docChannel closed).workers) 0
      (launch collectors docChannel closed) (le_refl _)
      ⟨rfl, rfl, by
          intro w hw
          simp only [launch, List.mem_map] at hw
          obtain ⟨c, hc, rfl⟩ := hw
          exact hlive c hc,
        by simp [launch], [], by simp [launch],
        by simp [launch, Function.comp_def, Worker.liveDocs]⟩
    have hclosed := run_invariant ref remoteOpts sched cancelAt
      (fun st => st.closed = closed)
      (fun t i st h hi => by
        obtain ⟨_, _, _, _, hc, _⟩ :=
          step_cases ref remoteOpts (parentDoneAt cancelAt t) i st hi
        exact hc.trans h)
      (workersSize ref remoteOpts (launch collectors docChannel closed).workers) 0
      (launch collectors docChannel closed) rfl
    have hnil := run_workers_nil ref remoteOpts sched cancelAt
      (workersSize ref remoteOpts (launch collectors docChannel closed).workers) 0
      (launch collectors docChannel closed) (le_refl _)
    simp only [collect]
    generalize run ref remoteOpts sched cancelAt
      (workersSize ref remoteOpts (launch collectors docChannel closed).workers) 0
      (launch collectors docChannel closed) = st at hnil hinv hclosed ⊢
    obtain ⟨herr, -, -, hret, sent, hch, hsent⟩ := hinv
    rw [hnil] at hsent
    refine ⟨{ st with cancelled := true }, sent, by simp [hnil, herr], hclosed, hnil, hret, hch,
      by simpa using hsent⟩
  · intro hnone cancelAt
    subst hnone
    exact ⟨_, rfl, rfl, rfl⟩

/-- C5, for two collectors that succeed, moving in turn, in a pass that the
caller cancels long after it has ended, and for no collector. -/
theorem collect_union_of_documents_witness :
    (∃ st : PassState Unit,
      collect exampleCollectors roundRobin (some 1000000) exampleRef [] false [] =
        some (st, none) ∧
      (∀ r ∈ st.returned, r.err = none) ∧
      none = (none : Option GoError) ∧ st.closed = false ∧ st.workers = [] ∧
      List.Perm (st.returned.map Returned.collectorName) (exampleCollectors.map Prod.fst) ∧
      (∃ cs, List.Perm cs exampleCollectors ∧
        List.Forall₂
          (Returned.isCallOf exampleRef []
            (∃ c, some 1000000 = some c ∧
              c < workersSize exampleRef [] (launch exampleCollectors [] false).workers))
          cs st.returned) ∧
      ∃ sent : List Document, st.docChannel = [] ++ sent ∧
        (sent : Multiset Document) =
          (st.returned.map (fun r => (r.sent : Multiset Document))).sum) ∧
    ((∀ c, some 1000000 = some c →
        workersSize exampleRef [] (launch exampleCollectors [] false).workers ≤ c) ∧
      (∀ c ∈ exampleCollectors, (c.2.Collect exampleRef []).live.2 = none) ∧
      ∃ (st : PassState Unit) (sent : List Document),
        collect exampleCollectors roundRobin (some 1000000) exampleRef [] false [] =
          some (st, none) ∧
        st.closed = false ∧ st.workers = [] ∧
        (∀ r ∈ st.returned, r.err = none) ∧
        st.docChannel = [] ++ sent ∧
        (sent : Multiset Document) =
          (exampleCollectors.map
            (fun c => ((c.2.Collect exampleRef []).live.1 : Multiset Document))).sum) ∧
    (∀ cancelAt : Option Nat, ∃ st : PassState Unit,
      collect [] roundRobin cancelAt exampleRef [exampleDoc [9]] false [] = some (st, none) ∧
      st.docChannel = [exampleDoc [9]] ∧ st.closed = false) :=
  ⟨⟨{ run exampleRef [] roundRobin (some 1000000)
        (workersSize exampleRef [] (launch exampleCollectors [] false).workers) 0
        (launch exampleCollectors [] false) with cancelled := true },
      rfl, by decide,
      (collect_union_of_documents exampleCollectors roundRobin exampleRef [] false []).1
        (some 1000000) _ none rfl (by decide)⟩,
   ⟨fun c hc => by cases hc; decide, by decide,
    (collect_union_of_documents exampleCollectors roundRobin exampleRef [] false []).2.1
      (some 1000000) (fun c hc => by cases hc; decide) (by decide)⟩,
   (collect_union_of_documents ([] : List (String × Collector Unit)) roundRobin exampleRef
      [exampleDoc [9]] false []).2.2 rfl⟩

/-- C6: `collect` returns, and when it does every goroutine it started has
returned; the goroutines that returned are the calls of `Collect` of the
registered collectors, each collector once, each with the documents and the
error that the collector's `Collect` gives for the answers it got when it
looked at its context, no answer being `done` unless the caller had
cancelled or the group had stored an error; `collect` returns nil if and only
if every one of these calls returned nil; and in any case it returns the
first non-nil error among the returns of the calls, in the order in which
they returned.  This is so for every order of the map, every schedule of the
goroutines and every moment of cancellation by the caller. -/
theorem collect_returns_first_error {ρ : Type} (collectors : List (String × Collector ρ))
    (sched : Nat → Nat) (cancelAt : Option Nat) (ref : Reference)
    (docChannel : List Document) (closed : Bool) (remoteOpts : List ρ) :
    ∃ (st : PassState ρ) (err : Option GoError),
      collect collectors sched cancelAt ref docChannel closed remoteOpts = some (st, err) ∧
      st.workers = [] ∧
      List.Perm (st.returned.map Returned.collectorName) (collectors.map Prod.fst) ∧
      (∃ cs, List.Perm cs collectors ∧
        List.Forall₂
          (Returned.isCallOf ref remoteOpts
            (doneBy cancelAt
              (workersSize ref remoteOpts (launch collectors docChannel closed).workers) err))
          cs st.returned) ∧
      (err = none ↔ ∀ r ∈ st.returned, r.err = none) ∧
      err = (st.returned.filterMap Returned.err).head? ∧
      (∀ e, err = some e → ∃ r ∈ st.returned, r.err = some e) := by
  obtain ⟨hnil, herr, hperm⟩ :=
    run_group collectors sched cancelAt ref docChannel closed remoteOpts
  obtain ⟨cs, hcs, hcalls⟩ :=
    run_calls collectors sched cancelAt ref docChannel closed remoteOpts
  simp only [collect]
  generalize run ref remoteOpts sched cancelAt
    (workersSize ref remoteOpts (launch collectors docChannel closed).workers) 0
    (launch collectors docChannel closed) = st at hnil herr hperm hcalls ⊢
  rw [hnil]
  refine ⟨{ st with cancelled := true }, st.err, by simp [hnil], hnil, hperm,
    ⟨cs, hcs, hcalls⟩, ?_, herr, ?_⟩
  · rw [herr, List.head?_eq_none_iff, List.filterMap_eq_nil_iff]
  · intro e he
    rw [herr] at he
    have hmem : e ∈ (List.filterMap Returned.err st.returned) := List.mem_of_mem_head? he
    rw [List.mem_filterMap] at hmem
    exact hmem

/-- C6, for three collectors of which one fails, moving in turn: the error
returned is the one of the failing collector, which the collector that looks
at its context then follows with the context's error. -/
theorem collect_returns_first_error_witness :
    (collect failingCollectors roundRobin none exampleRef [] false []).map Prod.snd =
      some (some (.base "registry unavailable")) ∧
    ∃ (st : PassState Unit) (err : Option GoError),
      collect failingCollectors roundRobin none exampleRef [] false [] = some (st, err) ∧
      st.workers = [] ∧
      List.Perm (st.returned.map Returned.collectorName) (failingCollectors.map Prod.fst) ∧
      (∃ cs, List.Perm cs failingCollectors ∧
        List.Forall₂
          (Returned.isCallOf exampleRef []
            (doneBy none
              (workersSize exampleRef [] (launch failingCollectors [] false).workers) err))
          cs st.returned) ∧
      (err = none ↔ ∀ r ∈ st.returned, r.err = none) ∧
      err = (st.returned.filterMap Returned.err).head? ∧
      (∀ e, err = some e → ∃ r ∈ st.returned, r.err = some e) :=
  ⟨by decide,
   collect_returns_first_error failingCollectors roundRobin none exampleRef [] false []⟩

end Guac
